import Mathlib

/-!
# Verification of the type-driven HTTP contract engine (package `api`)

A shallow embedding, in Lean 4, of the core binding / validation /
schema-generation / content-negotiation logic of the `api` Go package:

* `schema.go` — `schemaRegistry`, `(*schemaRegistry).typeToSchema`,
  `(*schemaRegistry).structToSchema`, `applyConstraintTags`,
  `jsonFieldName`, `isParamField`;
* `constraint.go` — `validateConstraints`, `collectConstraintErrors`,
  `checkFieldConstraints`, `isNumericKind`, `toFloat64`;
* `request.go` — `classifyRequest`, `decodeRequest`, `bindParams`,
  `setFieldValue`, `decodeBody`;
* the codec registry — `(*codecRegistry).negotiate`,
  `(*codecRegistry).decoderFor`, `newCodecRegistry`.

Go reflection is embedded as explicit inductive type descriptions; Go maps
are embedded as association lists whose insert removes any previous binding
for the key (so lookup and per-key cardinality agree with a Go map).
Standard-library helpers that the code calls (`strconv.ParseInt`,
`strconv.ParseFloat`, `strconv.ParseBool`, `strconv.Atoi`,
`time.ParseDuration`, `mime.ParseMediaType`, `encoding/json` decoding) are
modelled as executable Lean functions over exact rational arithmetic; the
models cover the grammar fragments the engine relies on (decimal literals
without exponents, unquoted media-type parameters, JSON value syntax) and
are noted at their definitions.  Float64 quantities (quality values,
numeric constraint bounds) are modelled as exact rationals.
-/

namespace Api

/-! ## Modelled standard-library helpers -/

/-- ASCII lower-casing of one character (the media types and parameter
keys the engine lowercases are ASCII). -/
def asciiLowerChar (c : Char) : Char :=
  if 'A' ≤ c && c ≤ 'Z' then Char.ofNat (c.toNat + 32) else c

/-- Model of `strings.ToLower` on ASCII input. -/
def lowerS (s : String) : String := ⟨s.data.map asciiLowerChar⟩

/-- The whitespace characters `strings.TrimSpace` strips (ASCII subset). -/
def isSpaceChar (c : Char) : Bool :=
  c = ' ' || c = '\t' || c = '\n' || c = '\r'

/-- Model of `strings.TrimSpace`. -/
def trimS (s : String) : String :=
  ⟨((s.data.dropWhile isSpaceChar).reverse.dropWhile isSpaceChar).reverse⟩

/-- Split on a single-character separator, model of `strings.Split` /
`strings.SplitSeq` for the one-character separators the engine uses
(`","`, `";"`, `"="`). -/
def splitCharAux (sep : Char) : List Char → List Char → List String
  | [], acc => [⟨acc.reverse⟩]
  | c :: rest, acc =>
    if c = sep then (⟨acc.reverse⟩ : String) :: splitCharAux sep rest []
    else splitCharAux sep rest (c :: acc)

/-- Model of `strings.Split(s, sep)` for a one-character `sep`. -/
def splitChar (sep : Char) (s : String) : List String :=
  splitCharAux sep s.data []

/-- Recursion behind `cutChar`. -/
def cutCharAux (sep : Char) : List Char → List Char → String × String × Bool
  | [], acc => (⟨acc.reverse⟩, "", false)
  | c :: rest, acc =>
    if c = sep then (⟨acc.reverse⟩, ⟨rest⟩, true)
    else cutCharAux sep rest (c :: acc)

/-- Model of `strings.Cut(s, sep)` for a one-character `sep`: the part
before the first separator, the part after, and whether it was found. -/
def cutChar (sep : Char) (s : String) : String × String × Bool :=
  cutCharAux sep s.data []

/-- Digits of a decimal literal folded to a natural number
(model of the accumulation loop inside `strconv` parsing). -/
def digitsToNat (l : List Char) : Nat :=
  l.foldl (fun a c => a * 10 + (c.toNat - 48)) 0

/-- Model of `strconv.ParseInt(s, 10, 64)`: optional sign, then one or
more decimal digits, rejecting values outside the int64 range. -/
def parseInt64 (s : String) : Option Int :=
  let core : List Char → Bool → Option Int := fun ds neg =>
    if ds = [] then none
    else if !ds.all Char.isDigit then none
    else
      let n : Int := if neg then -(digitsToNat ds : Int) else (digitsToNat ds : Int)
      if n < -(2 ^ 63) then none
      else if (2 ^ 63 : Int) ≤ n then none
      else some n
  match s.data with
  | '-' :: rest => core rest true
  | '+' :: rest => core rest false
  | rest => core rest false

/-- Model of `strconv.Atoi` (64-bit platform): same as
`strconv.ParseInt(s, 10, 64)` restricted to the `int` result. -/
def atoi (s : String) : Option Int := parseInt64 s

/-- Model of `strconv.ParseFloat(s, 64)` on the plain decimal fragment
(optional sign, digits, optional fractional part; no exponent — the
engine only ever feeds it struct-tag literals and `q=` values), computed
as an exact rational. -/
def parseFloatQ (s : String) : Option ℚ :=
  let core : List Char → Option ℚ := fun ds =>
    match ds.span Char.isDigit with
    | (ip, rest) =>
      match rest with
      | [] => if ip = [] then none else some (mkRat (digitsToNat ip) 1)
      | '.' :: fr =>
        if fr.all Char.isDigit && !(ip = [] && fr = []) then
          some (mkRat (digitsToNat ip * 10 ^ fr.length + digitsToNat fr) (10 ^ fr.length))
        else none
      | _ => none
  match s.data with
  | '-' :: rest => (core rest).map Rat.neg
  | '+' :: rest => core rest
  | rest => core rest

/-- Model of `strconv.ParseBool`. -/
def parseBool (s : String) : Option Bool :=
  if s = "1" || s = "t" || s = "T" || s = "TRUE" || s = "true" || s = "True" then some true
  else if s = "0" || s = "f" || s = "F" || s = "FALSE" || s = "false" || s = "False" then some false
  else none

/-- Lookup in an association list of string pairs, returning `""` when the
key is absent: the model of `reflect.StructTag.Get`. -/
def tagGet (tags : List (String × String)) (key : String) : String :=
  match tags.find? (fun kv => kv.1 == key) with
  | some kv => kv.2
  | none => ""

/-! ## Codec registry (`negotiate`, `decoderFor`, `newCodecRegistry`)

An `Encoder`/`Decoder` is identified by its `ContentType()` string plus a
tag distinguishing the concrete codec value. -/

/-- A codec entry: `name` identifies the concrete Go value
(`jsonCodec`, `xmlCodec`, a user codec), `contentType` is what its
`ContentType()` method returns. -/
structure Codec where
  name : String
  contentType : String
deriving DecidableEq, Repr

/-- The `jsonCodec` value. -/
def jsonCodec : Codec := ⟨"jsonCodec", "application/json"⟩

/-- The `xmlCodec` value. -/
def xmlCodec : Codec := ⟨"xmlCodec", "application/xml"⟩

/-- Model of `newCodecRegistry`'s encoder list: JSON first, XML second,
then user codecs (index 0 is the default). The decoder list is built the
same way. -/
def newCodecList (user : List Codec) : List Codec :=
  jsonCodec :: xmlCodec :: user

/-- One `key=value` parameter of a media range (simplified
`mime.ParseMediaType` parameter: unquoted value, key lowercased). -/
def parseParam (p : String) : Option (String × String) :=
  match splitChar '=' p with
  | [k, v] => some (lowerS (trimS k), trimS v)
  | _ => none

/-- Model of `mime.ParseMediaType` on the fragment the negotiation code
feeds it: `type/subtype` optionally followed by `;key=value` parameters.
The media type is trimmed and lowercased; an empty media type or a
malformed parameter is an error (`none`). -/
def parseMediaType (s : String) : Option (String × List (String × String)) :=
  match splitChar ';' s with
  | [] => none
  | mt :: ps =>
    let media := lowerS (trimS mt)
    if media = "" then none
    else
      match ps.mapM parseParam with
      | some params => some (media, params)
      | none => none

/-- The running best candidate of `(*codecRegistry).negotiate`:
`quality` starts at `-1`. -/
structure NegBest where
  enc : Option Codec
  quality : ℚ
deriving DecidableEq, Repr

/-- One iteration of the loop inside `(*codecRegistry).negotiate`, acting
on an already-parsed media range (candidate codec resolved from the
encoder list, plus its quality). -/
def negStep (best : NegBest) (range : Option Codec × ℚ) : NegBest :=
  if range.2 ≤ best.quality then best
  else
    match range.1 with
    | some e => ⟨some e, range.2⟩
    | none => best

/-- Parse one comma-separated part of the Accept header the way the loop
body of `negotiate` does: `mime.ParseMediaType` after `TrimSpace`, quality
from the `q` parameter (default `1.0`, also on a parse failure), and the
candidate resolved against the encoder list — the default encoder for
`*/*`, otherwise the first (earliest-registered) encoder whose
`ContentType()` equals the media type. -/
def parseRange (encoders : List Codec) (part : String) : Option (Option Codec × ℚ) :=
  match parseMediaType (trimS part) with
  | none => none
  | some (mediaType, params) =>
    let q : ℚ :=
      match params.find? (fun kv => kv.1 == "q") with
      | some kv =>
        match parseFloatQ kv.2 with
        | some v => v
        | none => 1
      | none => 1
    if mediaType = "*/*" then some (encoders.head?, q)
    else some (encoders.find? (fun e => e.contentType == mediaType), q)

/-- Model of `(*codecRegistry).negotiate`: empty Accept selects the
default encoder (index 0); otherwise each comma-separated media range is
parsed (unparsable ranges are skipped) and folded through `negStep`,
keeping the single highest-quality match, earliest seen first. -/
def negotiate (encoders : List Codec) (accept : String) : Option Codec :=
  if accept = "" then encoders.head?
  else
    (((splitChar ',' accept).filterMap (parseRange encoders)).foldl negStep ⟨none, -1⟩).enc

/-- Model of `(*codecRegistry).decoderFor`: empty Content-Type selects
the default decoder (index 0); otherwise the media type must match a
registered decoder's `ContentType()` exactly; no match (or an unparsable
Content-Type) is a failure. -/
def decoderFor (decoders : List Codec) (contentType : String) : Option Codec :=
  if contentType = "" then decoders.head?
  else
    match parseMediaType contentType with
    | none => none
    | some (mediaType, _) => decoders.find? (fun d => d.contentType == mediaType)

/-! ### Specification-side selection (from the spec's words, §4.5):
"Track the single highest-quality match seen so far; ties keep the
earliest-seen (first-registered) candidate", with `-1` the impossible
initial quality. Defined by recursion on the parsed ranges, preferring
the head on ties. -/

/-- Specification-side pick: the matched range of highest quality, the
earliest one on ties, ignoring matches whose quality does not exceed the
initial `-1` bar. -/
def specPick : List (Option Codec × ℚ) → Option (Codec × ℚ)
  | [] => none
  | (c, q) :: rest =>
    let tailBest := specPick rest
    match c with
    | none => tailBest
    | some e =>
      if (-1 : ℚ) < q then
        match tailBest with
        | none => some (e, q)
        | some (e', q') => if q' ≤ q then some (e, q) else some (e', q')
      else tailBest

/-- The fold implementing `negotiate` computes exactly the
specification-side pick, for any accumulator whose quality bar is at
least the initial `-1`. -/
theorem foldl_negStep_eq_specPick (l : List (Option Codec × ℚ)) :
    ∀ (b : Option Codec) (qb : ℚ), -1 ≤ qb →
      l.foldl negStep ⟨b, qb⟩ =
        (match specPick l with
         | some (e, q) => if qb < q then ⟨some e, q⟩ else ⟨b, qb⟩
         | none => ⟨b, qb⟩) := by
  induction l with
  | nil => intro b qb _; simp [specPick]
  | cons hd tl ih =>
    intro b qb hqb
    obtain ⟨c, q⟩ := hd
    match c with
    | none =>
      simp only [List.foldl_cons, negStep, specPick]
      have : (if q ≤ qb then (⟨b, qb⟩ : NegBest) else ⟨b, qb⟩) = ⟨b, qb⟩ := by
        split <;> rfl
      simp only [this]
      exact ih b qb hqb
    | some e =>
      simp only [List.foldl_cons, negStep, specPick]
      by_cases hq : q ≤ qb
      · -- head skipped by the implementation
        simp only [if_pos hq]
        rw [ih b qb hqb]
        have hq1 : (-1 : ℚ) < q ∨ ¬ (-1 : ℚ) < q := em _
        cases hq1 with
        | inl hlt =>
          simp only [if_pos hlt]
          cases htl : specPick tl with
          | none =>
            simp only [htl]
            have : ¬ qb < q := not_lt.mpr hq
            simp [this]
          | some p =>
            obtain ⟨e', q'⟩ := p
            simp only [htl]
            by_cases hqq : q' ≤ q
            · simp only [if_pos hqq]
              have h1 : ¬ qb < q := not_lt.mpr hq
              have h2 : ¬ qb < q' := not_lt.mpr (le_trans hqq hq)
              simp [h1, h2]
            · simp [if_neg hqq]
        | inr hnlt =>
          simp only [if_neg hnlt]
      · -- head accepted: quality bar rises to q
        push_neg at hq
        simp only [if_neg (not_le.mpr hq)]
        rw [ih (some e) q (le_trans hqb (le_of_lt hq))]
        have hlt : (-1 : ℚ) < q := lt_of_le_of_lt hqb hq
        simp only [if_pos hlt]
        cases htl : specPick tl with
        | none => simp [htl, hq]
        | some p =>
          obtain ⟨e', q'⟩ := p
          simp only [htl]
          by_cases hqq : q' ≤ q
          · have : ¬ q < q' := not_lt.mpr hqq
            simp [if_pos hqq, this, hq]
          · push_neg at hqq
            have h2 : qb < q' := lt_trans hq hqq
            simp [if_neg (not_le.mpr hqq), hqq, h2]

/-- Any quality `specPick` returns sits strictly above the initial `-1`
bar. -/
theorem specPick_quality_pos (l : List (Option Codec × ℚ)) :
    ∀ e q, specPick l = some (e, q) → (-1 : ℚ) < q := by
  induction l with
  | nil => intro e q h; simp [specPick] at h
  | cons hd tl ih =>
    intro e q h
    obtain ⟨c, qh⟩ := hd
    cases c with
    | none =>
      simp only [specPick] at h
      exact ih e q h
    | some e0 =>
      simp only [specPick] at h
      by_cases hq : (-1 : ℚ) < qh
      · simp only [if_pos hq] at h
        cases htl : specPick tl with
        | none =>
          simp only [htl] at h
          cases h
          exact hq
        | some p =>
          obtain ⟨e', q'⟩ := p
          simp only [htl] at h
          by_cases hqq : q' ≤ qh
          · simp only [if_pos hqq] at h
            cases h
            exact hq
          · simp only [if_neg hqq] at h
            cases h
            exact ih _ _ htl
      · simp only [if_neg hq] at h
        exact ih e q h

/-- `negotiate` on a non-empty Accept header returns exactly the
specification-side pick over the parsed ranges. -/
theorem negotiate_eq_specPick (encoders : List Codec) (accept : String)
    (h : accept ≠ "") :
    negotiate encoders accept =
      (specPick ((splitChar ',' accept).filterMap (parseRange encoders))).map (fun p => p.1) := by
  unfold negotiate
  rw [if_neg h]
  rw [foldl_negStep_eq_specPick _ none (-1) le_rfl]
  cases hs : specPick ((splitChar ',' accept).filterMap (parseRange encoders)) with
  | none => rfl
  | some p =>
    obtain ⟨e, q⟩ := p
    have hq : (-1 : ℚ) < q := specPick_quality_pos _ e q hs
    simp [hq]

/-! ## Schema registry (`schema.go`)

`JSONSchema` is the Go struct of the same name; the scalar / list-valued
attributes are grouped in `SchemaAtts` so that the schema tree can be a
nested inductive (fields the embedded functions never touch —
`OneOf`/`AnyOf`/`AllOf`/`Discriminator`/`Extensions` — are omitted).
`Default`/`Example` hold `any` in Go but the engine only ever stores tag
strings there, so they are strings here. -/

/-- The non-recursive attributes of `JSONSchema`. -/
structure SchemaAtts where
  type : String := ""
  format : String := ""
  contentEncoding : String := ""
  required : List String := []
  description : String := ""
  enum : List String := []
  ref : String := ""
  minLength : Option Int := none
  maxLength : Option Int := none
  minimum : Option ℚ := none
  maximum : Option ℚ := none
  pattern : String := ""
  minItems : Option Int := none
  maxItems : Option Int := none
  defaultV : String := ""
  exampleV : String := ""
deriving DecidableEq, Repr

/-- The `JSONSchema` tree: attributes plus the recursive
`Properties`, `Items` and `AdditionalProperties` fields. -/
inductive JSONSchema where
  | mk (atts : SchemaAtts) (properties : List (String × JSONSchema))
      (items : Option JSONSchema) (additionalProperties : Option JSONSchema)

/-- The attributes of a schema node. -/
def JSONSchema.atts : JSONSchema → SchemaAtts
  | ⟨a, _, _, _⟩ => a

/-- The `Properties` map of a schema node (association list; later
assignments win, as in a Go map). -/
def JSONSchema.properties : JSONSchema → List (String × JSONSchema)
  | ⟨_, p, _, _⟩ => p

/-- The `Items` sub-schema. -/
def JSONSchema.items : JSONSchema → Option JSONSchema
  | ⟨_, _, i, _⟩ => i

/-- The `AdditionalProperties` sub-schema. -/
def JSONSchema.addProps : JSONSchema → Option JSONSchema
  | ⟨_, _, _, ap⟩ => ap

/-- The zero `JSONSchema{}`. -/
def JSONSchema.empty : JSONSchema := ⟨{}, [], none, none⟩

/-- `JSONSchema{Type: ty}`. -/
def primSchema (ty : String) : JSONSchema := ⟨{ type := ty }, [], none, none⟩

/-- `JSONSchema{Type: ty, Format: fmt}`. -/
def fmtSchema (ty fmt : String) : JSONSchema :=
  ⟨{ type := ty, format := fmt }, [], none, none⟩

/-- `JSONSchema{Type: "string", ContentEncoding: "base64"}` (byte slices). -/
def base64Schema : JSONSchema :=
  ⟨{ type := "string", contentEncoding := "base64" }, [], none, none⟩

/-- `JSONSchema{Type: "array", Items: &items}`. -/
def arrSchema (items : JSONSchema) : JSONSchema :=
  ⟨{ type := "array" }, [], some items, none⟩

/-- `JSONSchema{Type: "object", AdditionalProperties: &v}` (string-keyed maps). -/
def mapValSchema (v : JSONSchema) : JSONSchema :=
  ⟨{ type := "object" }, [], none, some v⟩

/-- The object schema `structToSchema` builds: `Type: "object"` with the
accumulated properties and required names. -/
def objSchema (props : List (String × JSONSchema)) (req : List String) : JSONSchema :=
  ⟨{ type := "object", required := req }, props, none, none⟩

/-- The reference node `JSONSchema{Ref: "#/components/schemas/" + name}`. -/
def refSchema (name : String) : JSONSchema :=
  ⟨{ ref := "#/components/schemas/" ++ name }, [], none, none⟩

/-- `prop.Description = doc`. -/
def JSONSchema.setDescription (s : JSONSchema) (d : String) : JSONSchema :=
  match s with
  | ⟨a, p, i, ap⟩ => ⟨{ a with description := d }, p, i, ap⟩

/-! `applyConstraintTags` reads the constraint struct tags and sets the
corresponding schema attributes (numeric tags only when they parse, enum
split on commas, `default`/`example` stored as given). Each tag block of
the source function is one step below; `applyConstraintAtts` chains them
in source order. -/

/-- The `minLength` tag block of `applyConstraintTags`. -/
def applyTagMinLength (a : SchemaAtts) (tags : List (String × String)) : SchemaAtts :=
  if tagGet tags "minLength" != "" then
    match atoi (tagGet tags "minLength") with
    | some n => { a with minLength := some n }
    | none => a
  else a

/-- The `maxLength` tag block of `applyConstraintTags`. -/
def applyTagMaxLength (a : SchemaAtts) (tags : List (String × String)) : SchemaAtts :=
  if tagGet tags "maxLength" != "" then
    match atoi (tagGet tags "maxLength") with
    | some n => { a with maxLength := some n }
    | none => a
  else a

/-- The `minimum` tag block of `applyConstraintTags`. -/
def applyTagMinimum (a : SchemaAtts) (tags : List (String × String)) : SchemaAtts :=
  if tagGet tags "minimum" != "" then
    match parseFloatQ (tagGet tags "minimum") with
    | some q => { a with minimum := some q }
    | none => a
  else a

/-- The `maximum` tag block of `applyConstraintTags`. -/
def applyTagMaximum (a : SchemaAtts) (tags : List (String × String)) : SchemaAtts :=
  if tagGet tags "maximum" != "" then
    match parseFloatQ (tagGet tags "maximum") with
    | some q => { a with maximum := some q }
    | none => a
  else a

/-- The `pattern` tag block of `applyConstraintTags`. -/
def applyTagPattern (a : SchemaAtts) (tags : List (String × String)) : SchemaAtts :=
  if tagGet tags "pattern" != "" then { a with pattern := tagGet tags "pattern" } else a

/-- The `minItems` tag block of `applyConstraintTags`. -/
def applyTagMinItems (a : SchemaAtts) (tags : List (String × String)) : SchemaAtts :=
  if tagGet tags "minItems" != "" then
    match atoi (tagGet tags "minItems") with
    | some n => { a with minItems := some n }
    | none => a
  else a

/-- The `maxItems` tag block of `applyConstraintTags`. -/
def applyTagMaxItems (a : SchemaAtts) (tags : List (String × String)) : SchemaAtts :=
  if tagGet tags "maxItems" != "" then
    match atoi (tagGet tags "maxItems") with
    | some n => { a with maxItems := some n }
    | none => a
  else a

/-- The `enum` tag block of `applyConstraintTags`. -/
def applyTagEnum (a : SchemaAtts) (tags : List (String × String)) : SchemaAtts :=
  if tagGet tags "enum" != "" then { a with enum := splitChar ',' (tagGet tags "enum") } else a

/-- The `default` tag block of `applyConstraintTags`. -/
def applyTagDefault (a : SchemaAtts) (tags : List (String × String)) : SchemaAtts :=
  if tagGet tags "default" != "" then { a with defaultV := tagGet tags "default" } else a

/-- The `example` tag block of `applyConstraintTags`. -/
def applyTagExample (a : SchemaAtts) (tags : List (String × String)) : SchemaAtts :=
  if tagGet tags "example" != "" then { a with exampleV := tagGet tags "example" } else a

/-- The tag blocks of `applyConstraintTags` chained in source order. -/
def applyConstraintAtts (a : SchemaAtts) (tags : List (String × String)) : SchemaAtts :=
  applyTagExample (applyTagDefault (applyTagEnum (applyTagMaxItems (applyTagMinItems
    (applyTagPattern (applyTagMaximum (applyTagMinimum (applyTagMaxLength
      (applyTagMinLength a tags) tags) tags) tags) tags) tags) tags) tags) tags) tags

/-- Model of `applyConstraintTags`: applies the constraint tag blocks to
the schema node's attributes. -/
def applyConstraintTags (s : JSONSchema) (tags : List (String × String)) : JSONSchema :=
  match s with
  | ⟨a, p, i, ap⟩ => ⟨applyConstraintAtts a tags, p, i, ap⟩

/-- The binding tags of `paramTags` (`tags.go`). -/
def paramTags : List String := ["path", "query", "header", "cookie"]

/-- Model of `isParamField` (`schema.go`): a parameter binding tag or a
`form` tag makes a field a transport parameter, excluded from body
schemas. -/
def isParamField (tags : List (String × String)) : Bool :=
  paramTags.any (fun t => tagGet tags t != "") || tagGet tags "form" != ""

/-- Model of `jsonFieldName`: the first comma-separated component of the
`json` tag, falling back to the Go field name. -/
def jsonFieldName (tags : List (String × String)) (fname : String) : String :=
  let tag := tagGet tags "json"
  if tag = "" then fname
  else
    let name := (cutChar ',' tag).1
    if name = "" then fname else name

/-! ### Go types as data

`reflect.Type` is embedded as `Ty`; a *named struct type* is a `tNamed`
node whose identity string keys a `TypeEnv` entry carrying its display
name (`reflect.Type.Name()`), fields, and the optional `SchemaProvider` /
`SchemaTransformer` hook implementations. The well-known leaf types of
`typeToSchema`'s first switch are their own constructors, mirroring the
source's identity comparisons against `time.Time`, `time.Duration`,
`Void`, `Stream`, `SSEStream` and `FileUpload` before any kind switch.
Anonymous structs carry their fields inline. -/

mutual
/-- An embedded `reflect.Type`. -/
inductive Ty where
  | tString
  | tBool
  | tInt
  | tUint
  | tUint8
  | tFloat
  | tTime
  | tDuration
  | tVoid
  | tStream
  | tSSE
  | tFileUpload
  | tRawReq
  | tPtr (elem : Ty)
  | tSlice (elem : Ty)
  | tArray (elem : Ty)
  | tMap (key : Ty) (value : Ty)
  | tNamed (id : String)
  | tAnon (fields : TFields)
  | tInterface
  | tOther

/-- The field list of a struct type: Go name, exportedness, struct tags,
field type. -/
inductive TFields where
  | nil
  | cons (fname : String) (exported : Bool) (tags : List (String × String)) (ty : Ty)
      (rest : TFields)
end

/-- Whether a type is the `RawRequest` marker (the source compares
`f.Type == reflect.TypeFor[RawRequest]()`). -/
def Ty.isRawReq : Ty → Bool
  | .tRawReq => true
  | _ => false

/-- Whether a type's kind is `reflect.String` (map-key check). -/
def Ty.isStringKind : Ty → Bool
  | .tString => true
  | _ => false

/-- The definition of a named struct type: display name
(`reflect.Type.Name()`), fields, and the optional `SchemaProvider` /
`SchemaTransformer` hook implementations of the type. -/
structure StructDef where
  name : String
  fields : TFields
  provider : Option JSONSchema := none
  transformer : Option (JSONSchema → JSONSchema) := none

/-- The ambient set of named struct types, keyed by type identity. -/
def TypeEnv := List (String × StructDef)

/-- Find a named struct's definition by type identity. -/
def envFind (env : TypeEnv) (id : String) : Option StructDef :=
  (List.find? (fun kv => kv.1 == id) env).map (fun kv => kv.2)

/-- Go-map insert on an association list: the new binding replaces every
previous binding for the key, so lookup and per-key cardinality agree
with a Go map. -/
def mapInsert {α : Type} (k : String) (v : α) (l : List (String × α)) : List (String × α) :=
  (k, v) :: l.filter (fun kv => !(kv.1 == k))

/-- Lookup in an association-list map. -/
def mapLookup {α : Type} (k : String) (l : List (String × α)) : Option α :=
  (List.find? (fun kv => kv.1 == k) l).map (fun kv => kv.2)

/-- Number of entries for a key in an association-list map. -/
def mapCountKey {α : Type} (k : String) (l : List (String × α)) : Nat :=
  (l.filter (fun kv => kv.1 == k)).length

/-- Model of `schemaRegistry`: `schemas` is the key set of the Go
`map[reflect.Type]string` (its stored name values are never read — only
key membership is tested — so only the identities are kept), and `defs`
is the `map[string]JSONSchema` definitions table. -/
structure SReg where
  schemas : List String
  defs : List (String × JSONSchema)

/-- `newSchemaRegistry()`. -/
def newSReg : SReg := ⟨[], []⟩

/-- The per-field loop body of `(*schemaRegistry).structToSchema`,
generic in the recursive call `go` (which is `typeToSchema` at one less
fuel). Skips unexported fields, parameter/form-tagged fields,
`RawRequest` fields and `json:"-"` fields; otherwise converts the field
type, applies `doc` and the constraint tags, stores the property under
the JSON field name (later fields win on a name clash, as in a Go map)
and records `required:"true"` names in order. -/
def processFields (go : SReg → Ty → JSONSchema × SReg) :
    SReg → TFields → List (String × JSONSchema) × List String × SReg
  | r, .nil => ([], [], r)
  | r, .cons fname exported tags ty rest =>
    if !exported then processFields go r rest
    else if isParamField tags then processFields go r rest
    else if ty.isRawReq then processFields go r rest
    else
      let name := jsonFieldName tags fname
      if name = "-" then processFields go r rest
      else
        let (prop0, r2) := go r ty
        let prop1 := if tagGet tags "doc" != "" then prop0.setDescription (tagGet tags "doc") else prop0
        let prop := applyConstraintTags prop1 tags
        let (props, req, r3) := processFields go r2 rest
        ((if props.any (fun kv => kv.1 == name) then props else (name, prop) :: props),
         (if tagGet tags "required" == "true" then name :: req else req),
         r3)

/-- `schema = st.TransformSchema(schema)` when the type implements
`SchemaTransformer`, the identity otherwise. -/
def applyTransformer (tr : Option (JSONSchema → JSONSchema)) (s : JSONSchema) : JSONSchema :=
  match tr with
  | some g => g s
  | none => s

/-- Model of `(*schemaRegistry).typeToSchema` (with
`(*schemaRegistry).structToSchema` inlined through `processFields`),
with a fuel argument standing for the call stack. In source order:
pointer unwrap; the well-known leaf types; the `SchemaProvider` hook
(struct kinds only — it pre-empts everything below, including
registration); primitive kinds; slices (byte slices to base64 strings);
arrays; maps (non-string keys degrade to untyped objects); structs —
a named struct registers its identity *before* recursing into its
fields, applies `SchemaTransformer` to the finished definition and
returns a `$ref` node, an anonymous struct is inlined; interfaces and
all remaining kinds give the empty schema. -/
def tyToS : Nat → TypeEnv → SReg → Ty → JSONSchema × SReg
  | 0, _, r, _ => (JSONSchema.empty, r)
  | fuel + 1, env, r, t =>
    match t with
    | .tPtr e => tyToS fuel env r e
    | .tTime => (fmtSchema "string" "date-time", r)
    | .tDuration => (fmtSchema "string" "duration", r)
    | .tVoid => (JSONSchema.empty, r)
    | .tStream => (JSONSchema.empty, r)
    | .tSSE => (JSONSchema.empty, r)
    | .tFileUpload => (fmtSchema "string" "binary", r)
    | .tString => (primSchema "string", r)
    | .tBool => (primSchema "boolean", r)
    | .tInt => (primSchema "integer", r)
    | .tUint => (primSchema "integer", r)
    | .tUint8 => (primSchema "integer", r)
    | .tFloat => (primSchema "number", r)
    | .tSlice e =>
      match e with
      | .tUint8 => (base64Schema, r)
      | _ =>
        let (items, r2) := tyToS fuel env r e
        (arrSchema items, r2)
    | .tArray e =>
      let (items, r2) := tyToS fuel env r e
      (arrSchema items, r2)
    | .tMap k v =>
      if !k.isStringKind then (primSchema "object", r)
      else
        let (vs, r2) := tyToS fuel env r v
        (mapValSchema vs, r2)
    | .tNamed id =>
      match envFind env id with
      | none => (JSONSchema.empty, r)
      | some d =>
        match d.provider with
        | some s => (s, r)
        | none =>
          if id ∈ r.schemas then (refSchema d.name, r)
          else
            let r1 : SReg := { r with schemas := id :: r.schemas }
            let (props, req, r2) := processFields (fun r' t' => tyToS fuel env r' t') r1 d.fields
            let schema := applyTransformer d.transformer (objSchema props req)
            (refSchema d.name, { r2 with defs := mapInsert d.name schema r2.defs })
    | .tAnon fs =>
      let (props, req, r2) := processFields (fun r' t' => tyToS fuel env r' t') r fs
      (objSchema props req, r2)
    | .tInterface => (JSONSchema.empty, r)
    | .tRawReq => (JSONSchema.empty, r)
    | .tOther => (JSONSchema.empty, r)

/-! ### Registry monotonicity

The registration set `schemas` only ever grows during schema
generation. -/

/-- List-style induction for `TFields` (the auto-generated recursor of
the mutual inductive has two motives, so `induction` cannot use it
directly). -/
theorem TFields.inductTF {motive : TFields → Prop} (fs : TFields)
    (hnil : motive .nil)
    (hcons : ∀ fname exported tags ty rest, motive rest →
      motive (.cons fname exported tags ty rest)) : motive fs :=
  match fs with
  | .nil => hnil
  | .cons fname exported tags ty rest =>
    hcons fname exported tags ty rest (TFields.inductTF rest hnil hcons)

/-- Field-loop monotonicity, generic in the recursive call. -/
theorem processFields_schemas_mono (go : SReg → Ty → JSONSchema × SReg)
    (hgo : ∀ r t, r.schemas ⊆ (go r t).2.schemas) :
    ∀ (fs : TFields) (r : SReg), r.schemas ⊆ (processFields go r fs).2.2.schemas := by
  intro fs
  induction fs using TFields.inductTF with
  | hnil => intro r; simp [processFields]
  | hcons fname exported tags ty rest ih =>
    intro r
    simp only [processFields]
    by_cases h1 : !exported
    · simp only [if_pos h1]; exact ih r
    · simp only [if_neg h1]
      by_cases h2 : isParamField tags
      · simp only [if_pos h2]; exact ih r
      · simp only [if_neg h2]
        by_cases h3 : ty.isRawReq
        · simp only [if_pos h3]; exact ih r
        · simp only [if_neg h3]
          by_cases h4 : jsonFieldName tags fname = "-"
          · simp only [if_pos h4]; exact ih r
          · simp only [if_neg h4]
            rcases hgo2 : go r ty with ⟨prop0, r2⟩
            have hsub1 : r.schemas ⊆ r2.schemas := by
              have := hgo r ty
              rw [hgo2] at this
              exact this
            rcases hrest : processFields go r2 rest with ⟨props, req, r3⟩
            have hsub2 : r2.schemas ⊆ r3.schemas := by
              have := ih r2
              rw [hrest] at this
              exact this
            simp only [hgo2, hrest]
            exact List.Subset.trans hsub1 hsub2

/-- `typeToSchema` monotonicity: the registration set of the output
registry contains the input's. -/
theorem tyToS_schemas_mono :
    ∀ (n : Nat) (env : TypeEnv) (t : Ty) (r : SReg),
      r.schemas ⊆ (tyToS n env r t).2.schemas := by
  intro n
  induction n with
  | zero => intro env t r; simp [tyToS]
  | succ m ih =>
    intro env t r
    cases t with
    | tPtr e => simpa only [tyToS] using ih env e r
    | tString => simp [tyToS]
    | tBool => simp [tyToS]
    | tInt => simp [tyToS]
    | tUint => simp [tyToS]
    | tUint8 => simp [tyToS]
    | tFloat => simp [tyToS]
    | tTime => simp [tyToS]
    | tDuration => simp [tyToS]
    | tVoid => simp [tyToS]
    | tStream => simp [tyToS]
    | tSSE => simp [tyToS]
    | tFileUpload => simp [tyToS]
    | tRawReq => simp [tyToS]
    | tInterface => simp [tyToS]
    | tOther => simp [tyToS]
    | tSlice e =>
      cases e with
      | tUint8 => simp [tyToS]
      | tString => simpa only [tyToS] using ih env .tString r
      | tBool => simpa only [tyToS] using ih env .tBool r
      | tInt => simpa only [tyToS] using ih env .tInt r
      | tUint => simpa only [tyToS] using ih env .tUint r
      | tFloat => simpa only [tyToS] using ih env .tFloat r
      | tTime => simpa only [tyToS] using ih env .tTime r
      | tDuration => simpa only [tyToS] using ih env .tDuration r
      | tVoid => simpa only [tyToS] using ih env .tVoid r
      | tStream => simpa only [tyToS] using ih env .tStream r
      | tSSE => simpa only [tyToS] using ih env .tSSE r
      | tFileUpload => simpa only [tyToS] using ih env .tFileUpload r
      | tRawReq => simpa only [tyToS] using ih env .tRawReq r
      | tInterface => simpa only [tyToS] using ih env .tInterface r
      | tOther => simpa only [tyToS] using ih env .tOther r
      | tPtr e2 => simpa only [tyToS] using ih env (.tPtr e2) r
      | tSlice e2 => simpa only [tyToS] using ih env (.tSlice e2) r
      | tArray e2 => simpa only [tyToS] using ih env (.tArray e2) r
      | tMap k2 v2 => simpa only [tyToS] using ih env (.tMap k2 v2) r
      | tNamed id2 => simpa only [tyToS] using ih env (.tNamed id2) r
      | tAnon fs2 => simpa only [tyToS] using ih env (.tAnon fs2) r
    | tArray e => simpa only [tyToS] using ih env e r
    | tMap k v =>
      by_cases hk : !k.isStringKind
      · simp [tyToS, hk]
      · simp only [tyToS, if_neg hk]
        exact ih env v r
    | tAnon fs =>
      simp only [tyToS]
      exact processFields_schemas_mono _ (fun r' t' => ih env t' r') fs r
    | tNamed id =>
      simp only [tyToS]
      cases henv : envFind env id with
      | none => simp
      | some d =>
        simp only []
        cases hprov : d.provider with
        | some s => simp [hprov]
        | none =>
          simp only [hprov]
          by_cases hreg : id ∈ r.schemas
          · simp [hreg]
          · simp only [if_neg hreg]
            rcases hpf : processFields (fun r' t' => tyToS m env r' t')
                { r with schemas := id :: r.schemas } d.fields with ⟨props, req, r2⟩
            have hsub : ({ r with schemas := id :: r.schemas } : SReg).schemas ⊆ r2.schemas := by
              have := processFields_schemas_mono _ (fun r' t' => ih env t' r')
                d.fields { r with schemas := id :: r.schemas }
              rw [hpf] at this
              exact this
            simp only [hpf]
            intro x hx
            exact hsub (List.mem_cons_of_mem _ hx)

/-! ### Unfolding lemmas for the named-struct branch -/

/-- First call on an unregistered named struct (no `SchemaProvider`):
the identity is registered before the fields are walked, the finished
(possibly transformed) schema is stored in `defs` under the display
name, and a `$ref` node is returned. -/
theorem tyToS_named_first (n : Nat) (env : TypeEnv) (r : SReg) (id : String)
    (d : StructDef) (props : List (String × JSONSchema)) (req : List String) (r2 : SReg)
    (henv : envFind env id = some d) (hprov : d.provider = none)
    (hreg : ¬ id ∈ r.schemas)
    (hpf : processFields (fun r' t' => tyToS n env r' t')
      { r with schemas := id :: r.schemas } d.fields = (props, req, r2)) :
    tyToS (n + 1) env r (.tNamed id) =
      (refSchema d.name,
        { r2 with defs := mapInsert d.name (applyTransformer d.transformer (objSchema props req)) r2.defs }) := by
  simp only [tyToS, henv, hprov, if_neg hreg, hpf]

/-- Call on an already-registered named struct (no `SchemaProvider`):
returns the `$ref` node and leaves the registry untouched. -/
theorem tyToS_named_registered (n : Nat) (env : TypeEnv) (r : SReg) (id : String)
    (d : StructDef) (henv : envFind env id = some d) (hprov : d.provider = none)
    (hreg : id ∈ r.schemas) :
    tyToS (n + 1) env r (.tNamed id) = (refSchema d.name, r) := by
  simp [tyToS, henv, hprov, hreg]

/-- Call on a named struct implementing `SchemaProvider`: the hook's
schema is returned directly, before (and instead of) any registration. -/
theorem tyToS_named_provider (n : Nat) (env : TypeEnv) (r : SReg) (id : String)
    (d : StructDef) (s : JSONSchema) (henv : envFind env id = some d)
    (hprov : d.provider = some s) :
    tyToS (n + 1) env r (.tNamed id) = (s, r) := by
  simp [tyToS, henv, hprov]

/-- Inserting into the Go-map model leaves exactly one entry for the key. -/
theorem mapCountKey_mapInsert_self {α : Type} (k : String) (v : α)
    (l : List (String × α)) : mapCountKey k (mapInsert k v l) = 1 := by
  simp only [mapCountKey, mapInsert, List.filter_cons, beq_self_eq_true, if_pos]
  simp [List.filter_filter]

/-- Lookup after inserting into the Go-map model finds the new value. -/
theorem mapLookup_mapInsert_self {α : Type} (k : String) (v : α)
    (l : List (String × α)) : mapLookup k (mapInsert k v l) = some v := by
  simp [mapLookup, mapInsert]

/-- C1 (amended) — Per-registry idempotence for named struct types that
do not implement `SchemaProvider`: the first `typeToSchema` call returns
a reference node and installs exactly one definitions-table entry under
the display name; a second call on the same registry returns the
structurally identical reference node and changes nothing. -/
theorem claim_C1_schema_idempotent (n m : Nat) (env : TypeEnv) (r : SReg)
    (id : String) (d : StructDef)
    (henv : envFind env id = some d) (hprov : d.provider = none)
    (hreg : ¬ id ∈ r.schemas) :
    (tyToS (n + 1) env r (.tNamed id)).1 = refSchema d.name ∧
    (tyToS (m + 1) env (tyToS (n + 1) env r (.tNamed id)).2 (.tNamed id)).1 =
      (tyToS (n + 1) env r (.tNamed id)).1 ∧
    (tyToS (m + 1) env (tyToS (n + 1) env r (.tNamed id)).2 (.tNamed id)).2 =
      (tyToS (n + 1) env r (.tNamed id)).2 ∧
    mapCountKey d.name (tyToS (n + 1) env r (.tNamed id)).2.defs = 1 ∧
    (∃ sch, mapLookup d.name (tyToS (n + 1) env r (.tNamed id)).2.defs = some sch) := by
  rcases hpf : processFields (fun r' t' => tyToS n env r' t')
      { r with schemas := id :: r.schemas } d.fields with ⟨props, req, r2⟩
  have h1 := tyToS_named_first n env r id d props req r2 henv hprov hreg hpf
  have hmem : id ∈ r2.schemas := by
    have hsub := processFields_schemas_mono _ (fun r' t' => tyToS_schemas_mono n env t' r')
      d.fields { r with schemas := id :: r.schemas }
    rw [hpf] at hsub
    exact hsub (List.mem_cons_self _ _)
  rw [h1]
  have h2 := tyToS_named_registered m env
    ({ r2 with defs := mapInsert d.name (applyTransformer d.transformer (objSchema props req)) r2.defs })
    id d henv hprov hmem
  rw [h2]
  exact ⟨rfl, rfl, rfl, mapCountKey_mapInsert_self _ _ _,
    ⟨_, mapLookup_mapInsert_self _ _ _⟩⟩

/-- The environment for the C1 witness: one plain named struct `User`. -/
def userFields : TFields := .cons "Name" true [("json", "name")] .tString .nil

/-- The `User` struct definition. -/
def userDef : StructDef := { name := "User", fields := userFields }

/-- A type environment containing only `User`. -/
def userEnv : TypeEnv := [("User", userDef)]

/-- Witness for C1 (amended): the idempotence theorem applied to the
concrete `User` struct against a fresh registry. -/
theorem claim_C1_witness :
    (tyToS 3 userEnv newSReg (.tNamed "User")).1 = refSchema "User" ∧
    (tyToS 3 userEnv (tyToS 3 userEnv newSReg (.tNamed "User")).2 (.tNamed "User")).1 =
      (tyToS 3 userEnv newSReg (.tNamed "User")).1 ∧
    (tyToS 3 userEnv (tyToS 3 userEnv newSReg (.tNamed "User")).2 (.tNamed "User")).2 =
      (tyToS 3 userEnv newSReg (.tNamed "User")).2 ∧
    mapCountKey "User" (tyToS 3 userEnv newSReg (.tNamed "User")).2.defs = 1 ∧
    (∃ sch, mapLookup "User" (tyToS 3 userEnv newSReg (.tNamed "User")).2.defs = some sch) :=
  claim_C1_schema_idempotent 2 2 userEnv newSReg "User" userDef rfl rfl (by simp [newSReg])

/-- The schema returned by the `SchemaProvider` hook in the
counterexample environments. -/
def provSchema : JSONSchema := primSchema "string"

/-- A named struct `P` implementing `SchemaProvider`. -/
def provEnv : TypeEnv := [("P", { name := "P", fields := .nil, provider := some provSchema })]

/-- Counterexample to C1 as stated: `P` is a named struct type, yet both
`typeToSchema` calls return the provider's schema — not a reference node
— and the definitions table is left with zero entries for `P`, not one. -/
theorem claim_C1_counterexample :
    (tyToS 5 provEnv newSReg (.tNamed "P")).1 = provSchema ∧
    (tyToS 5 provEnv (tyToS 5 provEnv newSReg (.tNamed "P")).2 (.tNamed "P")).1 = provSchema ∧
    ¬ (tyToS 5 provEnv newSReg (.tNamed "P")).1 = refSchema "P" ∧
    mapCountKey "P" (tyToS 5 provEnv newSReg (.tNamed "P")).2.defs = 0 := by
  refine ⟨rfl, rfl, ?_, rfl⟩
  intro h
  have := congrArg (fun s => s.atts.ref) h
  simp only [provSchema, primSchema, refSchema, JSONSchema.atts] at this
  exact absurd this (by decide)

/-- C8 (amended) — The `SchemaTransformer` hook applies after the
structural inference, with the placeholder registration and the
definitions entry intact and a reference node returned; the
`SchemaProvider` hook, by contrast, pre-empts the struct branch
entirely: its schema is returned as-is and no registration or
definitions entry is made. -/
theorem claim_C8_schema_hooks :
    (∀ (n : Nat) (env : TypeEnv) (r : SReg) (id : String) (d : StructDef)
      (g : JSONSchema → JSONSchema) (props : List (String × JSONSchema))
      (req : List String) (r2 : SReg),
      envFind env id = some d → d.provider = none → d.transformer = some g →
      ¬ id ∈ r.schemas →
      processFields (fun r' t' => tyToS n env r' t')
        { r with schemas := id :: r.schemas } d.fields = (props, req, r2) →
      (tyToS (n + 1) env r (.tNamed id)).1 = refSchema d.name ∧
      id ∈ (tyToS (n + 1) env r (.tNamed id)).2.schemas ∧
      mapLookup d.name (tyToS (n + 1) env r (.tNamed id)).2.defs =
        some (g (objSchema props req))) ∧
    (∀ (n : Nat) (env : TypeEnv) (r : SReg) (id : String) (d : StructDef)
      (s : JSONSchema), envFind env id = some d → d.provider = some s →
      tyToS (n + 1) env r (.tNamed id) = (s, r)) := by
  constructor
  · intro n env r id d g props req r2 henv hprov htr hreg hpf
    have h1 := tyToS_named_first n env r id d props req r2 henv hprov hreg hpf
    have hmem : id ∈ r2.schemas := by
      have hsub := processFields_schemas_mono _ (fun r' t' => tyToS_schemas_mono n env t' r')
        d.fields { r with schemas := id :: r.schemas }
      rw [hpf] at hsub
      exact hsub (List.mem_cons_self _ _)
    rw [h1]
    refine ⟨rfl, hmem, ?_⟩
    simp only [applyTransformer, htr]
    exact mapLookup_mapInsert_self _ _ _
  · intro n env r id d s henv hprov
    exact tyToS_named_provider n env r id d s henv hprov

/-- A named struct `T8` implementing `SchemaTransformer` (the transform
adds a description), used by the C8 witness. -/
def transEnv : TypeEnv :=
  [("T8", { name := "T8", fields := userFields,
            transformer := some (fun s => s.setDescription "post") })]

/-- Witness for C8 (amended): both clauses applied at concrete inputs —
the transformer type `T8` registers and stores the transformed schema;
the provider type `P8` bypasses registration. -/
theorem claim_C8_witness :
    ((tyToS 3 transEnv newSReg (.tNamed "T8")).1 = refSchema "T8" ∧
      "T8" ∈ (tyToS 3 transEnv newSReg (.tNamed "T8")).2.schemas ∧
      mapLookup "T8" (tyToS 3 transEnv newSReg (.tNamed "T8")).2.defs =
        some ((fun s => s.setDescription "post")
          (objSchema (processFields (fun r' t' => tyToS 2 transEnv r' t')
              { newSReg with schemas := ["T8"] } userFields).1
            (processFields (fun r' t' => tyToS 2 transEnv r' t')
              { newSReg with schemas := ["T8"] } userFields).2.1))) ∧
    tyToS 5 provEnv newSReg (.tNamed "P") = (provSchema, newSReg) :=
  ⟨claim_C8_schema_hooks.1 2 transEnv newSReg "T8"
      { name := "T8", fields := userFields,
        transformer := some (fun s => s.setDescription "post") }
      (fun s => s.setDescription "post")
      (processFields (fun r' t' => tyToS 2 transEnv r' t')
        { newSReg with schemas := ["T8"] } userFields).1
      (processFields (fun r' t' => tyToS 2 transEnv r' t')
        { newSReg with schemas := ["T8"] } userFields).2.1
      (processFields (fun r' t' => tyToS 2 transEnv r' t')
        { newSReg with schemas := ["T8"] } userFields).2.2
      rfl rfl rfl (by simp [newSReg]) rfl,
   claim_C8_schema_hooks.2 4 provEnv newSReg "P"
      { name := "P", fields := .nil, provider := some provSchema } provSchema rfl rfl⟩

/-- A named struct `Q` implementing `SchemaProvider`, for the C8
counterexample. -/
def provEnv8 : TypeEnv := [("Q", { name := "Q", fields := .nil, provider := some provSchema })]

/-- Counterexample to C8 as stated: the `SchemaProvider` type `Q` gets
no placeholder registration and no definitions entry, and the returned
node is the provider's schema, not a reference node. -/
theorem claim_C8_counterexample :
    (tyToS 5 provEnv8 newSReg (.tNamed "Q")).2.schemas = [] ∧
    mapCountKey "Q" (tyToS 5 provEnv8 newSReg (.tNamed "Q")).2.defs = 0 ∧
    ¬ (tyToS 5 provEnv8 newSReg (.tNamed "Q")).1 = refSchema "Q" := by
  refine ⟨rfl, rfl, ?_⟩
  intro h
  have := congrArg (fun s => s.atts.ref) h
  simp only [provSchema, primSchema, refSchema, JSONSchema.atts] at this
  exact absurd this (by decide)

/-! ### Termination of schema generation

`tyToS` is fuel-indexed; termination of the Go recursion is the
statement that for every environment, registry and type the result
*stabilizes*: beyond some fuel bound the computed value no longer
depends on the fuel. The bound exists because a named struct is
registered before its fields are walked, so the number of unregistered
environment entries strictly decreases on every unfolding of a named
struct. -/

/-- A fuel-indexed computation stabilizes: some bound `B` and value `v`
exist with `g n = v` for every `n ≥ B`. -/
def Stab {α : Type} (g : Nat → α) : Prop := ∃ B v, ∀ n, B ≤ n → g n = v

/-- Constant functions stabilize. -/
theorem stab_const {α : Type} (v : α) : Stab (fun _ : Nat => v) :=
  ⟨0, v, fun _ _ => rfl⟩

/-- Pointwise-equal functions share stabilization. -/
theorem stab_congr {α : Type} (g g' : Nat → α) (h : ∀ n, g n = g' n)
    (hg : Stab g') : Stab g := by
  obtain ⟨B, v, hB⟩ := hg
  exact ⟨B, v, fun n hn => (h n).trans (hB n hn)⟩

/-- A function agreeing at successors with a stabilizing function
stabilizes. -/
theorem stab_of_succ {α : Type} (g f : Nat → α)
    (h : ∀ m, g (m + 1) = f m) (hf : Stab f) : Stab g := by
  obtain ⟨B, v, hB⟩ := hf
  refine ⟨B + 1, v, fun n hn => ?_⟩
  match n, hn with
  | m + 1, hn => rw [h m]; exact hB m (Nat.le_of_succ_le_succ hn)

/-- Stabilization is preserved by post-composition. -/
theorem stab_map {α β : Type} (f : Nat → α) (h : α → β) (hf : Stab f) :
    Stab (fun n => h (f n)) := by
  obtain ⟨B, v, hB⟩ := hf
  exact ⟨B, h v, fun n hn => congrArg h (hB n hn)⟩

/-- A function constant from fuel 1 on stabilizes. -/
theorem stab_from_one {α : Type} (g : Nat → α) (v : α)
    (h : ∀ m, g (m + 1) = v) : Stab g :=
  ⟨1, v, fun n hn => by
    match n, hn with
    | m + 1, _ => exact h m⟩

/-- The number of environment entries not yet registered in a registry. -/
def unreg (env : TypeEnv) (r : SReg) : Nat :=
  ((env.map (fun kv => kv.1)).filter (fun id => decide (¬ id ∈ r.schemas))).length

/-- A strict filter-count decrease given one witness that flips. -/
theorem length_filter_lt_of_witness {α : Type} (l : List α) (p q : α → Bool)
    (hpq : ∀ a, p a = true → q a = true) (x : α) (hx : x ∈ l)
    (hq : q x = true) (hp : p x = false) :
    (l.filter p).length < (l.filter q).length := by
  induction l with
  | nil => cases hx
  | cons a l ih =>
    rcases List.mem_cons.mp hx with rfl | hx'
    · have hle : (l.filter p).length ≤ (l.filter q).length :=
        (List.monotone_filter_right l hpq).length_le
      have e1 : List.filter p (x :: l) = List.filter p l :=
        List.filter_cons_of_neg (by simp [hp])
      have e2 : List.filter q (x :: l) = x :: List.filter q l :=
        List.filter_cons_of_pos hq
      rw [e1, e2, List.length_cons]
      omega
    · have h' := ih hx'
      cases hpa : p a with
      | true =>
        have hqa := hpq a hpa
        have e1 : List.filter p (a :: l) = a :: List.filter p l :=
          List.filter_cons_of_pos hpa
        have e2 : List.filter q (a :: l) = a :: List.filter q l :=
          List.filter_cons_of_pos hqa
        rw [e1, e2, List.length_cons, List.length_cons]
        omega
      | false =>
        have e1 : List.filter p (a :: l) = List.filter p l :=
          List.filter_cons_of_neg (by simp [hpa])
        cases hqa : q a with
        | true =>
          have e2 : List.filter q (a :: l) = a :: List.filter q l :=
            List.filter_cons_of_pos hqa
          rw [e1, e2, List.length_cons]
          omega
        | false =>
          have e2 : List.filter q (a :: l) = List.filter q l :=
            List.filter_cons_of_neg (by simp [hqa])
          rw [e1, e2]
          exact h'

/-- Growing the registration set cannot increase the unregistered count. -/
theorem unreg_le_of_subset (env : TypeEnv) {r r' : SReg}
    (h : r.schemas ⊆ r'.schemas) : unreg env r' ≤ unreg env r := by
  apply List.Sublist.length_le
  apply List.monotone_filter_right
  intro a ha
  simp only [decide_eq_true_eq] at ha ⊢
  exact fun hmem => ha (h hmem)

/-- Registering an unregistered environment entry strictly decreases the
unregistered count. -/
theorem unreg_insert_lt (env : TypeEnv) (r : SReg) (id : String)
    (hid : id ∈ env.map (fun kv => kv.1)) (hnot : ¬ id ∈ r.schemas) :
    unreg env { r with schemas := id :: r.schemas } < unreg env r := by
  refine length_filter_lt_of_witness _ _ _ ?_ id hid ?_ ?_
  · intro a ha
    simp only [decide_eq_true_eq] at ha ⊢
    intro hmem
    exact ha (List.mem_cons_of_mem _ hmem)
  · simpa using hnot
  · simp

/-- A found environment entry's identity occurs among the environment
keys. -/
theorem envFind_mem (env : TypeEnv) (id : String) (d : StructDef)
    (h : envFind env id = some d) : id ∈ env.map (fun kv => kv.1) := by
  unfold envFind at h
  cases hf : List.find? (fun kv => kv.1 == id) env with
  | none => rw [hf] at h; cases h
  | some kv =>
    have hmem := List.mem_of_find?_eq_some hf
    have hpred := List.find?_some hf
    have : kv.1 = id := by simpa using hpred
    subst this
    exact List.mem_map_of_mem _ hmem

/-- The field types of a field list. -/
def tysOf : TFields → List Ty
  | .nil => []
  | .cons _ _ _ ty rest => ty :: tysOf rest

/-- A field's type is smaller than its field list. -/
theorem tysOf_sizeOf (fs : TFields) :
    ∀ t', t' ∈ tysOf fs → sizeOf t' < sizeOf fs := by
  induction fs using TFields.inductTF with
  | hnil => intro t' h; cases h
  | hcons fname exported tags ty rest ih =>
    intro t' h
    rcases List.mem_cons.mp h with rfl | h'
    · simp only [TFields.cons.sizeOf_spec]
      omega
    · have := ih t' h'
      simp only [TFields.cons.sizeOf_spec]
      omega

/-- Stabilization of the field loop, generic in the fuel-indexed
recursive call `F`: if `F` keeps registries inside a class `S` and
stabilizes from every registry in `S` for each field type, the loop
stabilizes and its final registry stays in `S`. -/
theorem processFields_stab (F : Nat → SReg → Ty → JSONSchema × SReg)
    (S : SReg → Prop) (hmono : ∀ n r t, S r → S (F n r t).2) :
    ∀ fs : TFields,
      (∀ t', t' ∈ tysOf fs → ∀ r', S r' → Stab (fun n => F n r' t')) →
      ∀ r, S r →
        Stab (fun n => processFields (fun r' t' => F n r' t') r fs) ∧
        (∀ n, S (processFields (fun r' t' => F n r' t') r fs).2.2) := by
  intro fs
  induction fs using TFields.inductTF with
  | hnil =>
    intro _ r hS
    exact ⟨⟨0, ([], [], r), fun n _ => rfl⟩, fun n => hS⟩
  | hcons fname exported tags ty rest ih =>
    intro hty r hS
    have htyrest : ∀ t', t' ∈ tysOf rest → ∀ r', S r' → Stab (fun n => F n r' t') :=
      fun t' ht' => hty t' (by simp only [tysOf]; exact List.mem_cons_of_mem _ ht')
    have htyhead : ∀ r', S r' → Stab (fun n => F n r' ty) :=
      hty ty (by simp only [tysOf]; exact List.mem_cons_self _ _)
    by_cases h1 : exported = false
    · have heq : ∀ n, processFields (fun r' t' => F n r' t') r (.cons fname exported tags ty rest) =
          processFields (fun r' t' => F n r' t') r rest := by
        intro n; simp [processFields, h1]
      obtain ⟨hst, hSr⟩ := ih htyrest r hS
      exact ⟨stab_congr _ _ heq hst, fun n => (heq n) ▸ hSr n⟩
    · have h1' : exported = true := by
        cases exported
        · exact absurd rfl h1
        · rfl
      by_cases h2 : isParamField tags = true
      · have heq : ∀ n, processFields (fun r' t' => F n r' t') r (.cons fname exported tags ty rest) =
            processFields (fun r' t' => F n r' t') r rest := by
          intro n; simp [processFields, h1', h2]
        obtain ⟨hst, hSr⟩ := ih htyrest r hS
        exact ⟨stab_congr _ _ heq hst, fun n => (heq n) ▸ hSr n⟩
      · by_cases h3 : ty.isRawReq = true
        · have heq : ∀ n, processFields (fun r' t' => F n r' t') r (.cons fname exported tags ty rest) =
              processFields (fun r' t' => F n r' t') r rest := by
            intro n
            simp [processFields, h1', eq_false_of_ne_true h2, h3]
          obtain ⟨hst, hSr⟩ := ih htyrest r hS
          exact ⟨stab_congr _ _ heq hst, fun n => (heq n) ▸ hSr n⟩
        · by_cases h4 : jsonFieldName tags fname = "-"
          · have heq : ∀ n, processFields (fun r' t' => F n r' t') r (.cons fname exported tags ty rest) =
                processFields (fun r' t' => F n r' t') r rest := by
              intro n
              simp [processFields, h1', eq_false_of_ne_true h2, eq_false_of_ne_true h3, h4]
            obtain ⟨hst, hSr⟩ := ih htyrest r hS
            exact ⟨stab_congr _ _ heq hst, fun n => (heq n) ▸ hSr n⟩
          · -- active field
            have heq : ∀ n, processFields (fun r' t' => F n r' t') r (.cons fname exported tags ty rest) =
                (let pr := F n r ty
                 let prop := applyConstraintTags
                   (if tagGet tags "doc" != "" then pr.1.setDescription (tagGet tags "doc") else pr.1) tags
                 let rest' := processFields (fun r' t' => F n r' t') pr.2 rest
                 ((if rest'.1.any (fun kv => kv.1 == jsonFieldName tags fname) then rest'.1
                   else (jsonFieldName tags fname, prop) :: rest'.1),
                  (if tagGet tags "required" == "true" then jsonFieldName tags fname :: rest'.2.1
                   else rest'.2.1),
                  rest'.2.2)) := by
              intro n
              simp [processFields, h1', eq_false_of_ne_true h2, eq_false_of_ne_true h3, h4]
            obtain ⟨B1, v1, hB1⟩ := htyhead r hS
            have hSv1 : S v1.2 := by
              have hmn := hmono B1 r ty hS
              have e : F B1 r ty = v1 := hB1 B1 le_rfl
              rw [e] at hmn
              exact hmn
            obtain ⟨⟨B2, v2, hB2⟩, hS2⟩ := ih htyrest v1.2 hSv1
            constructor
            · refine ⟨max B1 B2,
                (let prop := applyConstraintTags
                   (if tagGet tags "doc" != "" then v1.1.setDescription (tagGet tags "doc") else v1.1) tags
                 ((if v2.1.any (fun kv => kv.1 == jsonFieldName tags fname) then v2.1
                   else (jsonFieldName tags fname, prop) :: v2.1),
                  (if tagGet tags "required" == "true" then jsonFieldName tags fname :: v2.2.1
                   else v2.2.1),
                  v2.2.2)), fun n hn => ?_⟩
              refine Eq.trans (heq n) ?_
              have e1 : F n r ty = v1 := hB1 n (le_trans (le_max_left _ _) hn)
              have e2 : processFields (fun r' t' => F n r' t') v1.2 rest = v2 :=
                hB2 n (le_trans (le_max_right _ _) hn)
              simp only [e1, e2]
            · intro n
              rw [heq n]
              exact (ih htyrest (F n r ty).2 (hmono n r ty hS)).2 n

/-- The tail of the named-struct registration branch as a function of
the field-loop result: the `$ref` node plus the registry whose `defs`
gained the (possibly transformed) object schema. -/
def finishNamed (dname : String) (tr : Option (JSONSchema → JSONSchema))
    (P : List (String × JSONSchema) × List String × SReg) : JSONSchema × SReg :=
  (refSchema dname,
   { P.2.2 with defs := mapInsert dname (applyTransformer tr (objSchema P.1 P.2.1)) P.2.2.defs })

/-- Whether a type is the `uint8` kind (the byte-slice element check of
the slice branch). -/
def Ty.isUint8 : Ty → Bool
  | .tUint8 => true
  | _ => false

/-- `isUint8` characterizes `tUint8`. -/
theorem Ty.isUint8_eq (e : Ty) (h : e.isUint8 = true) : e = .tUint8 := by
  cases e <;> simp_all [Ty.isUint8]

/-- Slice unfolding for non-byte element types. -/
theorem tyToS_slice_ne (n : Nat) (env : TypeEnv) (r : SReg) (e : Ty)
    (h : e.isUint8 = false) :
    tyToS (n + 1) env r (.tSlice e) =
      (arrSchema (tyToS n env r e).1, (tyToS n env r e).2) := by
  cases e <;> first
    | rfl
    | exact absurd h (by simp [Ty.isUint8])

/-- One-fuel stabilization from agreement of all successor values. -/
theorem stab_one_rfl {α : Type} (g : Nat → α)
    (h : ∀ m1 m2, g (m1 + 1) = g (m2 + 1)) : Stab g :=
  ⟨1, g 1, fun n hn => by
    match n, hn with
    | m + 1, _ => exact h m 0⟩

/-- Stabilization of `tyToS` in fuel, for any registry whose
unregistered count is bounded: the double induction is on the
unregistered count (decreased by the named-struct placeholder
registration) and the structural size of the type. -/
theorem tyToS_stab_main (env : TypeEnv) :
    ∀ (k s : Nat) (t : Ty), sizeOf t ≤ s → ∀ (r : SReg), unreg env r ≤ k →
      Stab (fun n => tyToS n env r t) := by
  intro k
  induction k using Nat.strong_induction_on with
  | _ k IHk =>
    intro s
    induction s with
    | zero =>
      intro t ht
      exfalso
      cases t <;> simp at ht
    | succ s IHs =>
      intro t ht r hk
      match t with
      | .tString => exact stab_one_rfl _ (fun m1 m2 => rfl)
      | .tBool => exact stab_one_rfl _ (fun m1 m2 => rfl)
      | .tInt => exact stab_one_rfl _ (fun m1 m2 => rfl)
      | .tUint => exact stab_one_rfl _ (fun m1 m2 => rfl)
      | .tUint8 => exact stab_one_rfl _ (fun m1 m2 => rfl)
      | .tFloat => exact stab_one_rfl _ (fun m1 m2 => rfl)
      | .tTime => exact stab_one_rfl _ (fun m1 m2 => rfl)
      | .tDuration => exact stab_one_rfl _ (fun m1 m2 => rfl)
      | .tVoid => exact stab_one_rfl _ (fun m1 m2 => rfl)
      | .tStream => exact stab_one_rfl _ (fun m1 m2 => rfl)
      | .tSSE => exact stab_one_rfl _ (fun m1 m2 => rfl)
      | .tFileUpload => exact stab_one_rfl _ (fun m1 m2 => rfl)
      | .tRawReq => exact stab_one_rfl _ (fun m1 m2 => rfl)
      | .tInterface => exact stab_one_rfl _ (fun m1 m2 => rfl)
      | .tOther => exact stab_one_rfl _ (fun m1 m2 => rfl)
      | .tPtr e =>
        have hse : sizeOf e ≤ s := by
          simp only [Ty.tPtr.sizeOf_spec] at ht; omega
        exact stab_of_succ _ _ (fun m => rfl) (IHs e hse r hk)
      | .tSlice e =>
        cases hU : e.isUint8 with
        | true =>
          have he := Ty.isUint8_eq e hU
          subst he
          exact stab_one_rfl _ (fun m1 m2 => rfl)
        | false =>
          have hse : sizeOf e ≤ s := by
            simp only [Ty.tSlice.sizeOf_spec] at ht; omega
          exact stab_of_succ _
            (fun m => (arrSchema (tyToS m env r e).1, (tyToS m env r e).2))
            (fun m => tyToS_slice_ne m env r e hU)
            (stab_map _ (fun p => (arrSchema p.1, p.2)) (IHs e hse r hk))
      | .tArray e =>
        have hse : sizeOf e ≤ s := by
          simp only [Ty.tArray.sizeOf_spec] at ht; omega
        exact stab_of_succ _
          (fun m => (arrSchema (tyToS m env r e).1, (tyToS m env r e).2))
          (fun m => rfl)
          (stab_map _ (fun p => (arrSchema p.1, p.2)) (IHs e hse r hk))
      | .tMap key v =>
        cases hK : key.isStringKind with
        | false =>
          exact stab_from_one _ (primSchema "object", r) (fun m => by simp [tyToS, hK])
        | true =>
          have hsv : sizeOf v ≤ s := by
            simp only [Ty.tMap.sizeOf_spec] at ht; omega
          exact stab_of_succ _
            (fun m => (mapValSchema (tyToS m env r v).1, (tyToS m env r v).2))
            (fun m => by simp [tyToS, hK])
            (stab_map _ (fun p => (mapValSchema p.1, p.2)) (IHs v hsv r hk))
      | .tAnon fs =>
        have hfs : sizeOf fs ≤ s := by
          simp only [Ty.tAnon.sizeOf_spec] at ht; omega
        have hstab := processFields_stab (fun n r' t' => tyToS n env r' t')
          (fun r' => unreg env r' ≤ k)
          (fun n r' t' hS =>
            le_trans (unreg_le_of_subset env (tyToS_schemas_mono n env t' r')) hS)
          fs
          (fun t' ht' r' hS' =>
            IHs t' (le_trans (le_of_lt (tysOf_sizeOf fs t' ht')) hfs) r' hS')
          r hk
        obtain ⟨hstab1, _⟩ := hstab
        exact stab_of_succ _
          (fun m =>
            (objSchema (processFields (fun r' t' => tyToS m env r' t') r fs).1
              (processFields (fun r' t' => tyToS m env r' t') r fs).2.1,
             (processFields (fun r' t' => tyToS m env r' t') r fs).2.2))
          (fun m => rfl)
          (stab_map _ (fun P => (objSchema P.1 P.2.1, P.2.2)) hstab1)
      | .tNamed id =>
        cases henv : envFind env id with
        | none =>
          exact stab_from_one _ (JSONSchema.empty, r) (fun m => by simp [tyToS, henv])
        | some d =>
          cases hprov : d.provider with
          | some sc =>
            exact stab_from_one _ (sc, r) (fun m => by simp [tyToS, henv, hprov])
          | none =>
            by_cases hreg : id ∈ r.schemas
            · exact stab_from_one _ (refSchema d.name, r)
                (fun m => tyToS_named_registered m env r id d henv hprov hreg)
            · have hid := envFind_mem env id d henv
              have hlt : unreg env { r with schemas := id :: r.schemas } < unreg env r :=
                unreg_insert_lt env r id hid hreg
              have hk' : unreg env { r with schemas := id :: r.schemas } < k :=
                lt_of_lt_of_le hlt hk
              have hstab := processFields_stab (fun n r' t' => tyToS n env r' t')
                (fun r' => unreg env r' ≤ unreg env { r with schemas := id :: r.schemas })
                (fun n r' t' hS =>
                  le_trans (unreg_le_of_subset env (tyToS_schemas_mono n env t' r')) hS)
                d.fields
                (fun t' _ r' hS' =>
                  IHk (unreg env { r with schemas := id :: r.schemas }) hk'
                    (sizeOf t') t' le_rfl r' hS')
                { r with schemas := id :: r.schemas } le_rfl
              obtain ⟨hstab1, _⟩ := hstab
              exact stab_of_succ _
                (fun m => finishNamed d.name d.transformer
                  (processFields (fun r' t' => tyToS m env r' t')
                    { r with schemas := id :: r.schemas } d.fields))
                (fun m => tyToS_named_first m env r id d _ _ _ henv hprov hreg rfl)
                (stab_map _ (finishNamed d.name d.transformer) hstab1)

/-- Schema generation stabilizes for every environment, registry and
type: the fuel-indexed `tyToS` is eventually constant in its fuel. -/
theorem tyToS_stab (env : TypeEnv) (r : SReg) (t : Ty) :
    Stab (fun n => tyToS n env r t) :=
  tyToS_stab_main env (unreg env r) (sizeOf t) t le_rfl r le_rfl

/-! ### Reference tokens for self-referential fields -/

/-- No tag block of `applyConstraintTags` touches the `$ref` attribute. -/
theorem applyTagMinLength_ref (a : SchemaAtts) (tags : List (String × String)) :
    (applyTagMinLength a tags).ref = a.ref := by
  unfold applyTagMinLength
  repeat' split
  all_goals rfl

/-- `maxLength` block preserves `$ref`. -/
theorem applyTagMaxLength_ref (a : SchemaAtts) (tags : List (String × String)) :
    (applyTagMaxLength a tags).ref = a.ref := by
  unfold applyTagMaxLength
  repeat' split
  all_goals rfl

/-- `minimum` block preserves `$ref`. -/
theorem applyTagMinimum_ref (a : SchemaAtts) (tags : List (String × String)) :
    (applyTagMinimum a tags).ref = a.ref := by
  unfold applyTagMinimum
  repeat' split
  all_goals rfl

/-- `maximum` block preserves `$ref`. -/
theorem applyTagMaximum_ref (a : SchemaAtts) (tags : List (String × String)) :
    (applyTagMaximum a tags).ref = a.ref := by
  unfold applyTagMaximum
  repeat' split
  all_goals rfl

/-- `pattern` block preserves `$ref`. -/
theorem applyTagPattern_ref (a : SchemaAtts) (tags : List (String × String)) :
    (applyTagPattern a tags).ref = a.ref := by
  unfold applyTagPattern
  repeat' split
  all_goals rfl

/-- `minItems` block preserves `$ref`. -/
theorem applyTagMinItems_ref (a : SchemaAtts) (tags : List (String × String)) :
    (applyTagMinItems a tags).ref = a.ref := by
  unfold applyTagMinItems
  repeat' split
  all_goals rfl

/-- `maxItems` block preserves `$ref`. -/
theorem applyTagMaxItems_ref (a : SchemaAtts) (tags : List (String × String)) :
    (applyTagMaxItems a tags).ref = a.ref := by
  unfold applyTagMaxItems
  repeat' split
  all_goals rfl

/-- `enum` block preserves `$ref`. -/
theorem applyTagEnum_ref (a : SchemaAtts) (tags : List (String × String)) :
    (applyTagEnum a tags).ref = a.ref := by
  unfold applyTagEnum
  repeat' split
  all_goals rfl

/-- `default` block preserves `$ref`. -/
theorem applyTagDefault_ref (a : SchemaAtts) (tags : List (String × String)) :
    (applyTagDefault a tags).ref = a.ref := by
  unfold applyTagDefault
  repeat' split
  all_goals rfl

/-- `example` block preserves `$ref`. -/
theorem applyTagExample_ref (a : SchemaAtts) (tags : List (String × String)) :
    (applyTagExample a tags).ref = a.ref := by
  unfold applyTagExample
  repeat' split
  all_goals rfl

/-- `applyConstraintTags` never touches the `$ref` attribute. -/
theorem applyConstraintTags_ref (s : JSONSchema) (tags : List (String × String)) :
    (applyConstraintTags s tags).atts.ref = s.atts.ref := by
  cases s with
  | mk a p i ap =>
    simp only [applyConstraintTags, JSONSchema.atts, applyConstraintAtts]
    rw [applyTagExample_ref, applyTagDefault_ref, applyTagEnum_ref, applyTagMaxItems_ref,
      applyTagMinItems_ref, applyTagPattern_ref, applyTagMaximum_ref, applyTagMinimum_ref,
      applyTagMaxLength_ref, applyTagMinLength_ref]

/-- `applyConstraintTags` never touches the properties map. -/
theorem applyConstraintTags_props (s : JSONSchema) (tags : List (String × String)) :
    (applyConstraintTags s tags).properties = s.properties := by
  cases s with
  | mk a p i ap => rfl

/-- `setDescription` never touches the `$ref` attribute. -/
theorem setDescription_ref (s : JSONSchema) (d : String) :
    (s.setDescription d).atts.ref = s.atts.ref := by
  cases s with
  | mk a p i ap => rfl

/-- `setDescription` never touches the properties map. -/
theorem setDescription_props (s : JSONSchema) (d : String) :
    (s.setDescription d).properties = s.properties := by
  cases s with
  | mk a p i ap => rfl

/-- Whether some active (exported, not parameter-tagged, not
`RawRequest`, not `json:"-"`) field of the list resolves to JSON name
`nm`. -/
def definesName : TFields → String → Bool
  | .nil, _ => false
  | .cons fname exported tags ty rest, nm =>
    (exported && !isParamField tags && !ty.isRawReq &&
      !(jsonFieldName tags fname == "-") && (jsonFieldName tags fname == nm)) ||
    definesName rest nm

/-- The JSON name `nm` resolves (later assignments winning, as in a Go
map) to an active field of type `tNamed id` in the field list. -/
inductive SelfRefField (id nm : String) : TFields → Prop
  | here (fname : String) (tags : List (String × String)) (rest : TFields) :
      isParamField tags = false → jsonFieldName tags fname = nm → nm ≠ "-" →
      definesName rest nm = false →
      SelfRefField id nm (.cons fname true tags (.tNamed id) rest)
  | there (fname : String) (exported : Bool) (tags : List (String × String))
      (ty : Ty) (rest : TFields) :
      SelfRefField id nm rest →
      SelfRefField id nm (.cons fname exported tags ty rest)

/-- The property keys produced by the field loop are exactly the active
JSON names. -/
theorem processFields_any_key (go : SReg → Ty → JSONSchema × SReg) :
    ∀ (fs : TFields) (r : SReg) (nm : String),
      ((processFields go r fs).1.any (fun kv => kv.1 == nm)) = definesName fs nm := by
  intro fs
  induction fs using TFields.inductTF with
  | hnil => intro r nm; simp [processFields, definesName]
  | hcons fname exported tags ty rest ih =>
    intro r nm
    by_cases h1 : exported = false
    · simp [processFields, definesName, h1, ih]
    · have h1' : exported = true := by
        cases exported
        · exact absurd rfl h1
        · rfl
      subst h1'
      by_cases h2 : isParamField tags = true
      · simp [processFields, definesName, h2, ih]
      · have h2' := eq_false_of_ne_true h2
        by_cases h3 : ty.isRawReq = true
        · simp [processFields, definesName, h2', h3, ih]
        · have h3' := eq_false_of_ne_true h3
          by_cases h4 : jsonFieldName tags fname = "-"
          · simp [processFields, definesName, h2', h3', h4, ih]
          · have heq : processFields go r (.cons fname true tags ty rest) =
                (let pr := go r ty
                 let prop := applyConstraintTags
                   (if tagGet tags "doc" != "" then pr.1.setDescription (tagGet tags "doc") else pr.1) tags
                 let rest' := processFields go pr.2 rest
                 ((if rest'.1.any (fun kv => kv.1 == jsonFieldName tags fname) then rest'.1
                   else (jsonFieldName tags fname, prop) :: rest'.1),
                  (if tagGet tags "required" == "true" then jsonFieldName tags fname :: rest'.2.1
                   else rest'.2.1),
                  rest'.2.2)) := by
              simp [processFields, h2', h3', h4]
            rw [heq]
            simp only []
            have h4b : (jsonFieldName tags fname == "-") = false := beq_eq_false_iff_ne.mpr h4
            by_cases h5 : (processFields go (go r ty).2 rest).1.any
                (fun kv => kv.1 == jsonFieldName tags fname) = true
            · -- a later field defines the same name: entry dropped
              rw [if_pos h5]
              rw [ih ((go r ty).2) nm]
              simp only [definesName, h2', h3', h4b]
              by_cases h6 : jsonFieldName tags fname = nm
              · subst h6
                rw [ih] at h5
                simp [h5]
              · have h6b : (jsonFieldName tags fname == nm) = false := beq_eq_false_iff_ne.mpr h6
                simp [h6b]
            · rw [if_neg h5]
              simp only [List.any_cons]
              rw [ih ((go r ty).2) nm]
              simp only [definesName, h2', h3', h4b]
              by_cases h6 : jsonFieldName tags fname = nm
              · subst h6
                simp
              · have h6b : (jsonFieldName tags fname == nm) = false := beq_eq_false_iff_ne.mpr h6
                simp [h6b]

/-- In a registry where `id` is already registered, the field loop maps
an active field of type `tNamed id` (with later-wins name resolution) to
a property that is a reference token: its `$ref` attribute is the
definition pointer and it has no inline properties. -/
theorem processFields_selfRef (env : TypeEnv) (n : Nat) :
    ∀ (fs : TFields) (r : SReg) (id nm : String) (d : StructDef),
      envFind env id = some d → d.provider = none →
      id ∈ r.schemas →
      SelfRefField id nm fs →
      ∃ prop,
        mapLookup nm (processFields (fun r' t' => tyToS (n + 1) env r' t') r fs).1 = some prop ∧
        prop.atts.ref = "#/components/schemas/" ++ d.name ∧
        prop.properties = [] := by
  intro fs r id nm d henv hprov hmem hsr
  induction hsr generalizing r with
  | here fname tags rest hpar hjson hdash hdef =>
    have h4 : ¬ jsonFieldName tags fname = "-" := by rw [hjson]; exact hdash
    have heq : processFields (fun r' t' => tyToS (n + 1) env r' t') r
        (.cons fname true tags (.tNamed id) rest) =
        (let pr := tyToS (n + 1) env r (.tNamed id)
         let prop := applyConstraintTags
           (if tagGet tags "doc" != "" then pr.1.setDescription (tagGet tags "doc") else pr.1) tags
         let rest' := processFields (fun r' t' => tyToS (n + 1) env r' t') pr.2 rest
         ((if rest'.1.any (fun kv => kv.1 == jsonFieldName tags fname) then rest'.1
           else (jsonFieldName tags fname, prop) :: rest'.1),
          (if tagGet tags "required" == "true" then jsonFieldName tags fname :: rest'.2.1
           else rest'.2.1),
          rest'.2.2)) := by
      simp [processFields, hpar, Ty.isRawReq, h4]
    have hcall := tyToS_named_registered n env r id d henv hprov hmem
    rw [heq]
    simp only [hcall]
    have hany : ((processFields (fun r' t' => tyToS (n + 1) env r' t') r rest).1.any
        (fun kv => kv.1 == jsonFieldName tags fname)) = false := by
      rw [processFields_any_key, hjson]
      exact hdef
    rw [if_neg (by rw [hany]; exact Bool.false_ne_true)]
    refine ⟨applyConstraintTags
      (if tagGet tags "doc" != "" then (refSchema d.name).setDescription (tagGet tags "doc")
       else refSchema d.name) tags, ?_, ?_, ?_⟩
    · simp [mapLookup, hjson]
    · rw [applyConstraintTags_ref]
      by_cases hdoc : (tagGet tags "doc" != "") = true
      · rw [if_pos hdoc, setDescription_ref]; rfl
      · rw [if_neg hdoc]; rfl
    · rw [applyConstraintTags_props]
      by_cases hdoc : (tagGet tags "doc" != "") = true
      · rw [if_pos hdoc, setDescription_props]; rfl
      · rw [if_neg hdoc]; rfl
  | there fname exported tags ty rest hsr' ih =>
    by_cases h1 : exported = false
    · have heq : processFields (fun r' t' => tyToS (n + 1) env r' t') r
          (.cons fname exported tags ty rest) =
          processFields (fun r' t' => tyToS (n + 1) env r' t') r rest := by
        simp [processFields, h1]
      rw [heq]
      exact ih r hmem
    · have h1' : exported = true := by
        cases exported
        · exact absurd rfl h1
        · rfl
      subst h1'
      by_cases h2 : isParamField tags = true
      · have heq : processFields (fun r' t' => tyToS (n + 1) env r' t') r
            (.cons fname true tags ty rest) =
            processFields (fun r' t' => tyToS (n + 1) env r' t') r rest := by
          simp [processFields, h2]
        rw [heq]
        exact ih r hmem
      · have h2' := eq_false_of_ne_true h2
        by_cases h3 : ty.isRawReq = true
        · have heq : processFields (fun r' t' => tyToS (n + 1) env r' t') r
              (.cons fname true tags ty rest) =
              processFields (fun r' t' => tyToS (n + 1) env r' t') r rest := by
            simp [processFields, h2', h3]
          rw [heq]
          exact ih r hmem
        · have h3' := eq_false_of_ne_true h3
          by_cases h4 : jsonFieldName tags fname = "-"
          · have heq : processFields (fun r' t' => tyToS (n + 1) env r' t') r
                (.cons fname true tags ty rest) =
                processFields (fun r' t' => tyToS (n + 1) env r' t') r rest := by
              simp [processFields, h2', h3', h4]
            rw [heq]
            exact ih r hmem
          · have heq : processFields (fun r' t' => tyToS (n + 1) env r' t') r
                (.cons fname true tags ty rest) =
                (let pr := tyToS (n + 1) env r ty
                 let prop := applyConstraintTags
                   (if tagGet tags "doc" != "" then pr.1.setDescription (tagGet tags "doc") else pr.1) tags
                 let rest' := processFields (fun r' t' => tyToS (n + 1) env r' t') pr.2 rest
                 ((if rest'.1.any (fun kv => kv.1 == jsonFieldName tags fname) then rest'.1
                   else (jsonFieldName tags fname, prop) :: rest'.1),
                  (if tagGet tags "required" == "true" then jsonFieldName tags fname :: rest'.2.1
                   else rest'.2.1),
                  rest'.2.2)) := by
              simp [processFields, h2', h3', h4]
            rw [heq]
            simp only []
            have hmem2 : id ∈ (tyToS (n + 1) env r ty).2.schemas :=
              tyToS_schemas_mono (n + 1) env ty r hmem
            obtain ⟨prop, hlook, href, hprops⟩ := ih ((tyToS (n + 1) env r ty).2) hmem2
            by_cases h5 : ((processFields (fun r' t' => tyToS (n + 1) env r' t')
                (tyToS (n + 1) env r ty).2 rest).1.any
                  (fun kv => kv.1 == jsonFieldName tags fname)) = true
            · rw [if_pos h5]
              exact ⟨prop, hlook, href, hprops⟩
            · rw [if_neg h5]
              have hne : ¬ jsonFieldName tags fname = nm := by
                intro hcontra
                apply h5
                rw [hcontra]
                have : ((processFields (fun r' t' => tyToS (n + 1) env r' t')
                    (tyToS (n + 1) env r ty).2 rest).1.any (fun kv => kv.1 == nm)) = true := by
                  unfold mapLookup at hlook
                  cases hfind : List.find? (fun kv => kv.1 == nm)
                      (processFields (fun r' t' => tyToS (n + 1) env r' t')
                        (tyToS (n + 1) env r ty).2 rest).1 with
                  | none => rw [hfind] at hlook; cases hlook
                  | some kv =>
                    have hp := List.find?_some hfind
                    have hm := List.mem_of_find?_eq_some hfind
                    rw [List.any_eq_true]
                    exact ⟨kv, hm, hp⟩
                exact this
              refine ⟨prop, ?_, href, hprops⟩
              unfold mapLookup
              rw [List.find?_cons_of_neg]
              · exact hlook
              · simp [hne]

/-- The two-node cyclic environment `A → B → A` used as the concrete
transitive-cycle instance. -/
def chainEnv : TypeEnv :=
  [("A", { name := "A", fields := .cons "B" true [("json", "b")] (.tNamed "B") .nil }),
   ("B", { name := "B", fields := .cons "A" true [("json", "a")] (.tNamed "A") .nil })]

/-- C2 — Schema generation terminates on cyclic type graphs, and a
self-referencing field's schema is a reference token: (1) for every
environment, registry and type the fuel-indexed generation stabilizes
(the recursion reaches a fixed result — the placeholder registration
makes the unregistered count decrease); (2) for a named struct (without
hooks) whose field resolves to the type itself, the definitions-table
entry maps that field to a `$ref` node with no inline expansion; (3) the
two-type cycle `A → B → A` terminates with mutual reference tokens. -/
theorem claim_C2_cycle_termination :
    (∀ (env : TypeEnv) (r : SReg) (t : Ty), Stab (fun n => tyToS n env r t)) ∧
    (∀ (n : Nat) (env : TypeEnv) (r : SReg) (id nm : String) (d : StructDef),
      envFind env id = some d → d.provider = none → d.transformer = none →
      ¬ id ∈ r.schemas → SelfRefField id nm d.fields →
      ∃ props req prop,
        mapLookup d.name (tyToS (n + 2) env r (.tNamed id)).2.defs =
          some (objSchema props req) ∧
        mapLookup nm props = some prop ∧
        prop.atts.ref = "#/components/schemas/" ++ d.name ∧
        prop.properties = []) ∧
    (tyToS 9 chainEnv newSReg (.tNamed "A") = tyToS 4 chainEnv newSReg (.tNamed "A") ∧
     mapLookup "A" (tyToS 4 chainEnv newSReg (.tNamed "A")).2.defs =
       some (objSchema [("b", refSchema "B")] []) ∧
     mapLookup "B" (tyToS 4 chainEnv newSReg (.tNamed "A")).2.defs =
       some (objSchema [("a", refSchema "A")] [])) := by
  refine ⟨tyToS_stab, ?_, rfl, rfl, rfl⟩
  intro n env r id nm d henv hprov htr hreg hsr
  rcases hpf : processFields (fun r' t' => tyToS (n + 1) env r' t')
      { r with schemas := id :: r.schemas } d.fields with ⟨props, req, r2⟩
  have h1 := tyToS_named_first (n + 1) env r id d props req r2 henv hprov hreg hpf
  rw [h1]
  refine ⟨props, req, ?_⟩
  have hmem : id ∈ ({ r with schemas := id :: r.schemas } : SReg).schemas :=
    List.mem_cons_self _ _
  obtain ⟨prop, hlook, href, hprops⟩ :=
    processFields_selfRef env n d.fields { r with schemas := id :: r.schemas }
      id nm d henv hprov hmem hsr
  rw [hpf] at hlook
  refine ⟨prop, ?_, hlook, href, hprops⟩
  rw [htr]
  simp only [applyTransformer]
  exact mapLookup_mapInsert_self _ _ _

/-- The directly self-referential environment for the C2 witness:
`Node` has a field `Next *Node`. -/
def nodeEnv : TypeEnv :=
  [("Node", { name := "Node", fields := .cons "Next" true [("json", "next")] (.tNamed "Node") .nil })]

/-- The `Node` struct definition. -/
def nodeDef : StructDef :=
  { name := "Node", fields := .cons "Next" true [("json", "next")] (.tNamed "Node") .nil }

/-- Witness for C2: the self-reference clause applied to the concrete
`Node` struct against a fresh registry. -/
theorem claim_C2_witness :
    ∃ props req prop,
      mapLookup "Node" (tyToS 4 nodeEnv newSReg (.tNamed "Node")).2.defs =
        some (objSchema props req) ∧
      mapLookup "next" props = some prop ∧
      prop.atts.ref = "#/components/schemas/" ++ "Node" ∧
      prop.properties = [] :=
  claim_C2_cycle_termination.2.1 2 nodeEnv newSReg "Node" "next" nodeDef rfl rfl rfl
    (by simp [newSReg])
    (SelfRefField.here "Next" [("json", "next")] .nil rfl rfl (by decide) rfl)

/-- A self-referential named struct `R` that implements
`SchemaProvider`, for the C2 counterexample. -/
def provSelfEnv : TypeEnv :=
  [("R", { name := "R", fields := .cons "Next" true [("json", "next")] (.tNamed "R") .nil,
           provider := some provSchema })]

/-- Counterexample to C2 as stated: `R` is a named struct whose field
references the type itself, yet — because it implements
`SchemaProvider` — no placeholder is installed and the definitions
table receives no entry for it at all, so the self-referencing field's
schema in the definitions table is not a reference token (there is no
entry to hold one). -/
theorem claim_C2_counterexample :
    SelfRefField "R" "next" (.cons "Next" true [("json", "next")] (.tNamed "R") .nil) ∧
    mapLookup "R" (tyToS 6 provSelfEnv newSReg (.tNamed "R")).2.defs = none ∧
    (tyToS 6 provSelfEnv newSReg (.tNamed "R")).2.schemas = [] :=
  ⟨SelfRefField.here "Next" [("json", "next")] .nil rfl rfl (by decide) rfl, rfl, rfl⟩

/-- C4 — Encoder negotiation is deterministic: an empty Accept header
selects the default codec (index 0); a non-empty header is resolved by
parsing each comma-separated media range (quality from `q=`, default
`1.0`; `*/*` matching the default codec) and picking the single
highest-quality match, ties keeping the earliest-seen candidate — stated
as equality with the specification-side `specPick`; an explicit non-empty
Accept with no matching candidate fails. In particular
`application/xml;q=0.9, application/json` selects the JSON codec and
`text/csv` against the default registry fails. -/
theorem claim_C4_negotiation_deterministic :
    (∀ encoders : List Codec, negotiate encoders "" = encoders.head?) ∧
    (∀ (encoders : List Codec) (accept : String), accept ≠ "" →
      negotiate encoders accept =
        (specPick ((splitChar ',' accept).filterMap (parseRange encoders))).map (fun p => p.1)) ∧
    negotiate (newCodecList []) "application/xml;q=0.9, application/json" = some jsonCodec ∧
    negotiate (newCodecList []) "text/csv" = none ∧
    negotiate (newCodecList []) "application/xml, application/json" = some xmlCodec ∧
    negotiate (newCodecList []) "*/*" = some jsonCodec := by
  refine ⟨fun encoders => rfl, negotiate_eq_specPick, ?_, ?_, ?_, ?_⟩
  · decide
  · decide
  · decide
  · decide

/-- Witness for C4: the general clauses applied at concrete inputs, with
the hypothesis discharged at `text/csv`. -/
theorem claim_C4_witness :
    negotiate [xmlCodec] "" = some xmlCodec ∧
    (("text/csv" : String) ≠ "" ∧
      negotiate (newCodecList []) "text/csv" =
        (specPick ((splitChar ',' "text/csv").filterMap (parseRange (newCodecList [])))).map
          (fun p => p.1)) :=
  ⟨claim_C4_negotiation_deterministic.1 [xmlCodec],
   by decide,
   claim_C4_negotiation_deterministic.2.1 (newCodecList []) "text/csv" (by decide)⟩

/-! ## Constraint validator (`constraint.go`)

A populated Go value is embedded as `Val`, carrying exactly what the
validator inspects: string contents, numeric contents (exact rationals
standing for the `toFloat64` coercion), slice lengths, and struct fields
with their tags. `regexp.MatchString` is a parameter
`re : String → String → Option Bool` (`none` standing for a compile
error, which the source treats as no violation). -/

mutual
/-- A reflected Go value as seen by the validator. -/
inductive Val where
  | vStr (s : String)
  | vInt (i : Int)
  | vUint (n : Nat)
  | vFloat (q : ℚ)
  | vBool (b : Bool)
  | vSlice (len : Nat)
  | vStruct (fields : VFields)
  | vRaw
  | vOther

/-- The fields of a struct value: Go name, exportedness, tags, whether
the field's type is `RawRequest`, and the field value. -/
inductive VFields where
  | nil
  | cons (fname : String) (exported : Bool) (tags : List (String × String))
      (isRaw : Bool) (v : Val) (rest : VFields)
end

/-- List-style induction for `VFields`. -/
theorem VFields.inductVF {motive : VFields → Prop} (fs : VFields)
    (hnil : motive .nil)
    (hcons : ∀ fname exported tags isRaw v rest, motive rest →
      motive (.cons fname exported tags isRaw v rest)) : motive fs :=
  match fs with
  | .nil => hnil
  | .cons fname exported tags isRaw v rest =>
    hcons fname exported tags isRaw v rest (VFields.inductVF rest hnil hcons)

/-- `len(s)` in Go: the UTF-8 byte length. -/
def strLen (s : String) : Nat := s.utf8ByteSize

/-- One decimal digit as a character. -/
def digitChar (n : Nat) : Char := Char.ofNat (48 + n)

/-- Decimal digits of a natural number (fuel-based so it evaluates in
the kernel). -/
def natToStringAux : Nat → Nat → List Char → List Char
  | 0, _, acc => acc
  | fuel + 1, n, acc =>
    if n < 10 then digitChar n :: acc
    else natToStringAux fuel (n / 10) (digitChar (n % 10) :: acc)

/-- Model of `fmt` rendering of a natural number. -/
def natToString (n : Nat) : String := ⟨natToStringAux (n + 1) n []⟩

/-- Model of `fmt` rendering of an `int` (`%d`). -/
def intToString (i : Int) : String :=
  if i < 0 then "-" ++ natToString i.natAbs else natToString i.natAbs

/-- The `Value` payload of a `ValidationError` (string, coerced float,
or sequence length). -/
inductive ErrVal where
  | s (v : String)
  | q (v : ℚ)
  | n (v : Nat)

/-- `ValidationError` (`errors.go`): field path, message, offending
value. -/
structure ValidationError where
  field : String
  message : String
  value : ErrVal

/-- `ProblemDetail` (`errors.go`), the fields `validateConstraints`
populates (`typ` is the Go field `Type`). -/
structure ProblemDetail where
  typ : String
  title : String
  status : Nat
  detail : String
  errors : List ValidationError

/-- Whether the value's kind satisfies `isNumericKind` (an integer,
unsigned or float kind). -/
def isNumericVal : Val → Bool
  | .vInt _ => true
  | .vUint _ => true
  | .vFloat _ => true
  | _ => false

/-- Model of `toFloat64`, over exact rationals. -/
def toFloatQ : Val → ℚ
  | .vInt i => (i : ℚ)
  | .vUint n => (n : ℚ)
  | .vFloat q => q
  | _ => 0

/-- The `minLength` block of `checkFieldConstraints`. -/
def checkMinLength (tags : List (String × String)) (fv : Val) (path : String) :
    List ValidationError :=
  match fv with
  | .vStr val =>
    if tagGet tags "minLength" != "" then
      match atoi (tagGet tags "minLength") with
      | some n =>
        if (strLen val : Int) < n then
          [⟨path, "must be at least " ++ intToString n ++ " characters", .s val⟩]
        else []
      | none => []
    else []
  | _ => []

/-- The `maxLength` block of `checkFieldConstraints`. -/
def checkMaxLength (tags : List (String × String)) (fv : Val) (path : String) :
    List ValidationError :=
  match fv with
  | .vStr val =>
    if tagGet tags "maxLength" != "" then
      match atoi (tagGet tags "maxLength") with
      | some n =>
        if (n : Int) < (strLen val : Int) then
          [⟨path, "must be at most " ++ intToString n ++ " characters", .s val⟩]
        else []
      | none => []
    else []
  | _ => []

/-- The `pattern` block of `checkFieldConstraints` (`re` models
`regexp.MatchString`; a compile error — `none` — is no violation). -/
def checkPatternBlock (re : String → String → Option Bool)
    (tags : List (String × String)) (fv : Val) (path : String) :
    List ValidationError :=
  match fv with
  | .vStr val =>
    if tagGet tags "pattern" != "" then
      match re (tagGet tags "pattern") val with
      | some matched =>
        if !matched then
          [⟨path, "must match pattern " ++ tagGet tags "pattern", .s val⟩]
        else []
      | none => []
    else []
  | _ => []

/-- The `minimum` block of `checkFieldConstraints`. -/
def checkMinimum (tags : List (String × String)) (fv : Val) (path : String) :
    List ValidationError :=
  if isNumericVal fv then
    if tagGet tags "minimum" != "" then
      match parseFloatQ (tagGet tags "minimum") with
      | some lower =>
        if toFloatQ fv < lower then
          [⟨path, "must be at least " ++ tagGet tags "minimum", .q (toFloatQ fv)⟩]
        else []
      | none => []
    else []
  else []

/-- The `maximum` block of `checkFieldConstraints`. -/
def checkMaximum (tags : List (String × String)) (fv : Val) (path : String) :
    List ValidationError :=
  if isNumericVal fv then
    if tagGet tags "maximum" != "" then
      match parseFloatQ (tagGet tags "maximum") with
      | some upper =>
        if upper < toFloatQ fv then
          [⟨path, "must be at most " ++ tagGet tags "maximum", .q (toFloatQ fv)⟩]
        else []
      | none => []
    else []
  else []

/-- The `enum` block of `checkFieldConstraints`. -/
def checkEnumBlock (tags : List (String × String)) (fv : Val) (path : String) :
    List ValidationError :=
  match fv with
  | .vStr val =>
    if tagGet tags "enum" != "" then
      if !(splitChar ',' (tagGet tags "enum")).any (fun a => a == val) then
        [⟨path, "must be one of [" ++ tagGet tags "enum" ++ "]", .s val⟩]
      else []
    else []
  | _ => []

/-- The `minItems` block of `checkFieldConstraints`. -/
def checkMinItems (tags : List (String × String)) (fv : Val) (path : String) :
    List ValidationError :=
  match fv with
  | .vSlice len =>
    if tagGet tags "minItems" != "" then
      match atoi (tagGet tags "minItems") with
      | some n =>
        if (len : Int) < n then
          [⟨path, "must have at least " ++ intToString n ++ " items", .n len⟩]
        else []
      | none => []
    else []
  | _ => []

/-- The `maxItems` block of `checkFieldConstraints`. -/
def checkMaxItems (tags : List (String × String)) (fv : Val) (path : String) :
    List ValidationError :=
  match fv with
  | .vSlice len =>
    if tagGet tags "maxItems" != "" then
      match atoi (tagGet tags "maxItems") with
      | some n =>
        if (n : Int) < (len : Int) then
          [⟨path, "must have at most " ++ intToString n ++ " items", .n len⟩]
        else []
      | none => []
    else []
  | _ => []

/-- Model of `checkFieldConstraints`: the eight constraint blocks in
source order, each appending its violation (if any). -/
def checkFieldConstraints (re : String → String → Option Bool)
    (tags : List (String × String)) (fv : Val) (path : String) :
    List ValidationError :=
  checkMinLength tags fv path ++ checkMaxLength tags fv path ++
  checkPatternBlock re tags fv path ++ checkMinimum tags fv path ++
  checkMaximum tags fv path ++ checkEnumBlock tags fv path ++
  checkMinItems tags fv path ++ checkMaxItems tags fv path

/-- Model of `collectConstraintErrors` (returning the collected list
instead of appending through a pointer): walks the struct fields,
skipping unexported and `json:"-"` fields; a field named `Body` of
struct kind is recursed into with prefix `body`; `RawRequest` fields are
skipped; every other field is checked against the constraint set, and
nested struct fields are recursed into (unless parameter-tagged). -/
def collectFields (re : String → String → Option Bool) :
    VFields → String → List ValidationError
  | .nil, _ => []
  | .cons fname exported tags isRaw v rest, pfx =>
    if !exported then collectFields re rest pfx
    else
      let name := jsonFieldName tags fname
      if name == "-" then collectFields re rest pfx
      else
        let path := if pfx == "" then name else pfx ++ "." ++ name
        match v with
        | .vStruct bf =>
          if fname == "Body" then
            collectFields re bf "body" ++ collectFields re rest pfx
          else if isRaw then collectFields re rest pfx
          else
            checkFieldConstraints re tags (.vStruct bf) path ++
            (if !isParamField tags then collectFields re bf path else []) ++
            collectFields re rest pfx
        | w =>
          if isRaw then collectFields re rest pfx
          else checkFieldConstraints re tags w path ++ collectFields re rest pfx

/-- Model of `validateConstraints`: a non-struct value validates
trivially; otherwise all violations are collected and a
`ProblemDetail` carrying every one of them is returned — or no error
at all when there are none. -/
def validateConstraints (re : String → String → Option Bool) (v : Val) :
    Option ProblemDetail :=
  match v with
  | .vStruct fs =>
    let errs := collectFields re fs ""
    if errs.length > 0 then
      some ⟨"about:blank", "Validation Failed", 400,
        natToString errs.length ++ " constraint violation(s)", errs⟩
    else none
  | _ => none

/-! ### Independent violation indicators

One boolean per constraint kind, restating each guard of
`checkFieldConstraints` independently; the aggregation theorems count
violations with these. -/

/-- The string is shorter than a parseable `minLength`. -/
def violMinLength (tags : List (String × String)) (fv : Val) : Bool :=
  match fv with
  | .vStr val =>
    tagGet tags "minLength" != "" &&
      (match atoi (tagGet tags "minLength") with
       | some n => decide ((strLen val : Int) < n)
       | none => false)
  | _ => false

/-- The string is longer than a parseable `maxLength`. -/
def violMaxLength (tags : List (String × String)) (fv : Val) : Bool :=
  match fv with
  | .vStr val =>
    tagGet tags "maxLength" != "" &&
      (match atoi (tagGet tags "maxLength") with
       | some n => decide ((n : Int) < (strLen val : Int))
       | none => false)
  | _ => false

/-- The string fails a compiling `pattern`. -/
def violPattern (re : String → String → Option Bool)
    (tags : List (String × String)) (fv : Val) : Bool :=
  match fv with
  | .vStr val =>
    tagGet tags "pattern" != "" &&
      (match re (tagGet tags "pattern") val with
       | some matched => !matched
       | none => false)
  | _ => false

/-- The numeric value lies below a parseable `minimum`. -/
def violMinimum (tags : List (String × String)) (fv : Val) : Bool :=
  isNumericVal fv &&
    (tagGet tags "minimum" != "" &&
      (match parseFloatQ (tagGet tags "minimum") with
       | some lower => decide (toFloatQ fv < lower)
       | none => false))

/-- The numeric value lies above a parseable `maximum`. -/
def violMaximum (tags : List (String × String)) (fv : Val) : Bool :=
  isNumericVal fv &&
    (tagGet tags "maximum" != "" &&
      (match parseFloatQ (tagGet tags "maximum") with
       | some upper => decide (upper < toFloatQ fv)
       | none => false))

/-- The string is outside the `enum` set. -/
def violEnum (tags : List (String × String)) (fv : Val) : Bool :=
  match fv with
  | .vStr val =>
    tagGet tags "enum" != "" &&
      !(splitChar ',' (tagGet tags "enum")).any (fun a => a == val)
  | _ => false

/-- The slice is shorter than a parseable `minItems`. -/
def violMinItems (tags : List (String × String)) (fv : Val) : Bool :=
  match fv with
  | .vSlice len =>
    tagGet tags "minItems" != "" &&
      (match atoi (tagGet tags "minItems") with
       | some n => decide ((len : Int) < n)
       | none => false)
  | _ => false

/-- The slice is longer than a parseable `maxItems`. -/
def violMaxItems (tags : List (String × String)) (fv : Val) : Bool :=
  match fv with
  | .vSlice len =>
    tagGet tags "maxItems" != "" &&
      (match atoi (tagGet tags "maxItems") with
       | some n => decide ((n : Int) < (len : Int))
       | none => false)
  | _ => false

/-- The number of independent constraints the field value violates. -/
def fieldViolationCount (re : String → String → Option Bool)
    (tags : List (String × String)) (fv : Val) : Nat :=
  (if violMinLength tags fv then 1 else 0) +
  (if violMaxLength tags fv then 1 else 0) +
  (if violPattern re tags fv then 1 else 0) +
  (if violMinimum tags fv then 1 else 0) +
  (if violMaximum tags fv then 1 else 0) +
  (if violEnum tags fv then 1 else 0) +
  (if violMinItems tags fv then 1 else 0) +
  (if violMaxItems tags fv then 1 else 0)

/-- Each block reports exactly its indicator. -/
theorem checkMinLength_length (tags : List (String × String)) (fv : Val) (path : String) :
    (checkMinLength tags fv path).length = if violMinLength tags fv then 1 else 0 := by
  cases fv <;> simp only [checkMinLength, violMinLength] <;>
    (repeat' split) <;> simp_all

/-- `maxLength` block counts its indicator. -/
theorem checkMaxLength_length (tags : List (String × String)) (fv : Val) (path : String) :
    (checkMaxLength tags fv path).length = if violMaxLength tags fv then 1 else 0 := by
  cases fv <;> simp only [checkMaxLength, violMaxLength] <;>
    (repeat' split) <;> simp_all

/-- `pattern` block counts its indicator. -/
theorem checkPatternBlock_length (re : String → String → Option Bool)
    (tags : List (String × String)) (fv : Val) (path : String) :
    (checkPatternBlock re tags fv path).length = if violPattern re tags fv then 1 else 0 := by
  cases fv <;> simp only [checkPatternBlock, violPattern] <;>
    (repeat' split) <;> simp_all

/-- `minimum` block counts its indicator. -/
theorem checkMinimum_length (tags : List (String × String)) (fv : Val) (path : String) :
    (checkMinimum tags fv path).length = if violMinimum tags fv then 1 else 0 := by
  simp only [checkMinimum, violMinimum]
  (repeat' split) <;> simp_all

/-- `maximum` block counts its indicator. -/
theorem checkMaximum_length (tags : List (String × String)) (fv : Val) (path : String) :
    (checkMaximum tags fv path).length = if violMaximum tags fv then 1 else 0 := by
  simp only [checkMaximum, violMaximum]
  (repeat' split) <;> simp_all

/-- `enum` block counts its indicator. -/
theorem checkEnumBlock_length (tags : List (String × String)) (fv : Val) (path : String) :
    (checkEnumBlock tags fv path).length = if violEnum tags fv then 1 else 0 := by
  cases fv with
  | vStr val =>
    simp only [checkEnumBlock, violEnum]
    by_cases h1 : (tagGet tags "enum" != "") = true
    · by_cases h2 : ((splitChar ',' (tagGet tags "enum")).any (fun a => a == val)) = true
      · simp [h1, h2]
      · simp [h1, h2]
    · have h1' := eq_false_of_ne_true h1
      simp [h1']
  | vInt i => rfl
  | vUint n => rfl
  | vFloat q => rfl
  | vBool b => rfl
  | vSlice len => rfl
  | vStruct fs => rfl
  | vRaw => rfl
  | vOther => rfl

/-- `minItems` block counts its indicator. -/
theorem checkMinItems_length (tags : List (String × String)) (fv : Val) (path : String) :
    (checkMinItems tags fv path).length = if violMinItems tags fv then 1 else 0 := by
  cases fv <;> simp only [checkMinItems, violMinItems] <;>
    (repeat' split) <;> simp_all

/-- `maxItems` block counts its indicator. -/
theorem checkMaxItems_length (tags : List (String × String)) (fv : Val) (path : String) :
    (checkMaxItems tags fv path).length = if violMaxItems tags fv then 1 else 0 := by
  cases fv <;> simp only [checkMaxItems, violMaxItems] <;>
    (repeat' split) <;> simp_all

/-- One field's check reports exactly one violation per violated
constraint: no truncation and no duplication. -/
theorem checkFieldConstraints_length (re : String → String → Option Bool)
    (tags : List (String × String)) (fv : Val) (path : String) :
    (checkFieldConstraints re tags fv path).length = fieldViolationCount re tags fv := by
  simp only [checkFieldConstraints, fieldViolationCount, List.length_append,
    checkMinLength_length, checkMaxLength_length, checkPatternBlock_length,
    checkMinimum_length, checkMaximum_length, checkEnumBlock_length,
    checkMinItems_length, checkMaxItems_length]

/-- The total independent-violation count of a struct's fields, mirroring
the validator's traversal (the prefix plays no role in counting). -/
def countFields (re : String → String → Option Bool) : VFields → Nat
  | .nil => 0
  | .cons fname exported tags isRaw v rest =>
    if !exported then countFields re rest
    else
      let name := jsonFieldName tags fname
      if name == "-" then countFields re rest
      else
        match v with
        | .vStruct bf =>
          if fname == "Body" then countFields re bf + countFields re rest
          else if isRaw then countFields re rest
          else
            fieldViolationCount re tags (.vStruct bf) +
            (if !isParamField tags then countFields re bf else 0) +
            countFields re rest
        | w =>
          if isRaw then countFields re rest
          else fieldViolationCount re tags w + countFields re rest

set_option maxHeartbeats 2000000 in
/-- Unfolding of `countFields` at a cons cell. -/
theorem countFields_cons (re : String → String → Option Bool) (fname : String)
    (exported : Bool) (tags : List (String × String)) (isRaw : Bool) (v : Val)
    (rest : VFields) :
    countFields re (.cons fname exported tags isRaw v rest) =
      (if !exported then countFields re rest
       else
         let name := jsonFieldName tags fname
         if name == "-" then countFields re rest
         else
           match v with
           | .vStruct bf =>
             if fname == "Body" then countFields re bf + countFields re rest
             else if isRaw then countFields re rest
             else
               fieldViolationCount re tags (.vStruct bf) +
               (if !isParamField tags then countFields re bf else 0) +
               countFields re rest
           | w =>
             if isRaw then countFields re rest
             else fieldViolationCount re tags w + countFields re rest) := by
  rw [countFields.eq_def]

set_option maxHeartbeats 2000000 in
/-- Unfolding of `collectFields` at a cons cell. -/
theorem collectFields_cons (re : String → String → Option Bool) (fname : String)
    (exported : Bool) (tags : List (String × String)) (isRaw : Bool) (v : Val)
    (rest : VFields) (pfx : String) :
    collectFields re (.cons fname exported tags isRaw v rest) pfx =
      (if !exported then collectFields re rest pfx
       else
         let name := jsonFieldName tags fname
         if name == "-" then collectFields re rest pfx
         else
           let path := if pfx == "" then name else pfx ++ "." ++ name
           match v with
           | .vStruct bf =>
             if fname == "Body" then
               collectFields re bf "body" ++ collectFields re rest pfx
             else if isRaw then collectFields re rest pfx
             else
               checkFieldConstraints re tags (.vStruct bf) path ++
               (if !isParamField tags then collectFields re bf path else []) ++
               collectFields re rest pfx
           | w =>
             if isRaw then collectFields re rest pfx
             else checkFieldConstraints re tags w path ++ collectFields re rest pfx) := by
  rw [collectFields.eq_def]

/-- The collected violation list has exactly the independent count. -/
theorem collectFields_length (re : String → String → Option Bool) :
    ∀ (fs : VFields) (pfx : String),
      (collectFields re fs pfx).length = countFields re fs := by
  have H : ∀ (k : Nat) (fs : VFields), sizeOf fs ≤ k → ∀ pfx,
      (collectFields re fs pfx).length = countFields re fs := by
    intro k
    induction k with
    | zero =>
      intro fs h
      exfalso
      cases fs <;> simp at h
    | succ k ihk =>
      intro fs hfs pfx
      match fs with
      | .nil =>
        rw [collectFields.eq_def, countFields.eq_def]
        rfl
      | .cons fname exported tags isRaw v rest =>
        have hrest : sizeOf rest ≤ k := by
          simp only [VFields.cons.sizeOf_spec] at hfs; omega
        rw [collectFields_cons, countFields_cons]
        by_cases h1 : exported = false
        · simp [h1, ihk rest hrest]
        · have h1' : exported = true := by
            cases exported
            · exact absurd rfl h1
            · rfl
          subst h1'
          by_cases h2 : jsonFieldName tags fname = "-"
          · simp [h2, ihk rest hrest]
          · have h2b : (jsonFieldName tags fname == "-") = false := beq_eq_false_iff_ne.mpr h2
            cases v with
            | vStruct bf =>
              have hbf : sizeOf bf ≤ k := by
                simp only [VFields.cons.sizeOf_spec, Val.vStruct.sizeOf_spec] at hfs; omega
              by_cases h3 : fname = "Body"
              · subst h3
                simp [h2, h2b, ihk rest hrest, ihk bf hbf]
              · have h3b : (fname == "Body") = false := beq_eq_false_iff_ne.mpr h3
                cases isRaw with
                | true => simp [h2b, h3b, ihk rest hrest]
                | false =>
                  by_cases h4 : isParamField tags = true
                  · simp [h2b, h3b, h4, checkFieldConstraints_length, ihk rest hrest]
                  · have h4' := eq_false_of_ne_true h4
                    simp [h2b, h3b, h4', checkFieldConstraints_length,
                      ihk rest hrest, ihk bf hbf]
                    omega
            | vStr s =>
              cases isRaw with
              | true => simp [h2b, ihk rest hrest]
              | false =>
                simp [h2b, checkFieldConstraints_length, ihk rest hrest]
            | vInt i =>
              cases isRaw with
              | true => simp [h2b, ihk rest hrest]
              | false =>
                simp [h2b, checkFieldConstraints_length, ihk rest hrest]
            | vUint n =>
              cases isRaw with
              | true => simp [h2b, ihk rest hrest]
              | false =>
                simp [h2b, checkFieldConstraints_length, ihk rest hrest]
            | vFloat q =>
              cases isRaw with
              | true => simp [h2b, ihk rest hrest]
              | false =>
                simp [h2b, checkFieldConstraints_length, ihk rest hrest]
            | vBool b =>
              cases isRaw with
              | true => simp [h2b, ihk rest hrest]
              | false =>
                simp [h2b, checkFieldConstraints_length, ihk rest hrest]
            | vSlice len =>
              cases isRaw with
              | true => simp [h2b, ihk rest hrest]
              | false =>
                simp [h2b, checkFieldConstraints_length, ihk rest hrest]
            | vRaw =>
              cases isRaw with
              | true => simp [h2b, ihk rest hrest]
              | false =>
                simp [h2b, checkFieldConstraints_length, ihk rest hrest]
            | vOther =>
              cases isRaw with
              | true => simp [h2b, ihk rest hrest]
              | false =>
                simp [h2b, checkFieldConstraints_length, ihk rest hrest]
  intro fs pfx
  exact H (sizeOf fs) fs le_rfl pfx

/-- The independent-violation count of a value. -/
def countVal (re : String → String → Option Bool) : Val → Nat
  | .vStruct fs => countFields re fs
  | _ => 0

/-- C3 — Validation aggregates every violation: a value with zero
violations yields no error at all, and a value violating `N`
independent constraints yields an error carrying exactly `N`
violations (neither fewer nor more). -/
theorem claim_C3_validation_aggregates (re : String → String → Option Bool) (v : Val) :
    (validateConstraints re v = none ↔ countVal re v = 0) ∧
    (∀ pd, validateConstraints re v = some pd →
      pd.errors.length = countVal re v ∧ 0 < countVal re v) := by
  cases v with
  | vStruct fs =>
    simp only [validateConstraints, countVal]
    by_cases h : (collectFields re fs "").length > 0
    · rw [if_pos h]
      constructor
      · constructor
        · intro hc; cases hc
        · intro hc
          rw [collectFields_length] at h
          omega
      · intro pd hpd
        cases hpd
        rw [← collectFields_length re fs ""]
        exact ⟨rfl, h⟩
    · rw [if_neg h]
      constructor
      · constructor
        · intro _
          rw [← collectFields_length re fs ""]
          omega
        · intro _; rfl
      · intro pd hpd; cases hpd
  | vStr s => exact ⟨by simp [validateConstraints, countVal], fun pd h => by cases h⟩
  | vInt i => exact ⟨by simp [validateConstraints, countVal], fun pd h => by cases h⟩
  | vUint n => exact ⟨by simp [validateConstraints, countVal], fun pd h => by cases h⟩
  | vFloat q => exact ⟨by simp [validateConstraints, countVal], fun pd h => by cases h⟩
  | vBool b => exact ⟨by simp [validateConstraints, countVal], fun pd h => by cases h⟩
  | vSlice len => exact ⟨by simp [validateConstraints, countVal], fun pd h => by cases h⟩
  | vRaw => exact ⟨by simp [validateConstraints, countVal], fun pd h => by cases h⟩
  | vOther => exact ⟨by simp [validateConstraints, countVal], fun pd h => by cases h⟩

/-- A regex engine standing for `regexp.MatchString` in concrete
instances (every pattern fails to compile — the validator then reports
no pattern violation, matching the source's `err == nil` guard). -/
def reNone : String → String → Option Bool := fun _ _ => none

/-- A value violating three independent constraints (`minLength`,
`minimum`, `enum`), mirroring the exhaustive-collection test. -/
def exhaustVal : Val :=
  .vStruct (.cons "Name" true [("json", "name"), ("minLength", "3")] false (.vStr "a")
    (.cons "Age" true [("json", "age"), ("minimum", "18")] false (.vInt 5)
      (.cons "Role" true [("json", "role"), ("enum", "admin,user")] false (.vStr "superadmin") .nil)))

/-- Witness for C3: the aggregation theorem applied to a value with
three independent violations — the returned error carries exactly
three. -/
theorem claim_C3_witness :
    countVal reNone exhaustVal = 3 ∧
    (⟨"about:blank", "Validation Failed", 400, "3 constraint violation(s)",
      [⟨"name", "must be at least 3 characters", .s "a"⟩,
       ⟨"age", "must be at least 18", .q 5⟩,
       ⟨"role", "must be one of [admin,user]", .s "superadmin"⟩]⟩ : ProblemDetail).errors.length =
        countVal reNone exhaustVal ∧
    0 < countVal reNone exhaustVal :=
  ⟨rfl,
   (claim_C3_validation_aggregates reNone exhaustVal).2
     ⟨"about:blank", "Validation Failed", 400, "3 constraint violation(s)",
      [⟨"name", "must be at least 3 characters", .s "a"⟩,
       ⟨"age", "must be at least 18", .q 5⟩,
       ⟨"role", "must be one of [admin,user]", .s "superadmin"⟩]⟩ rfl⟩

/-! ### C6 — binding-source fields and validation -/

/-- The binding tags stripped, leaving only non-binding tags. -/
def eraseParams (tags : List (String × String)) : List (String × String) :=
  tags.filter (fun kv =>
    !(kv.1 == "path" || kv.1 == "query" || kv.1 == "header" || kv.1 == "cookie" || kv.1 == "form"))

/-- Stripping binding tags does not change any other tag's value. -/
theorem tagGet_eraseParams (tags : List (String × String)) (key : String)
    (h : ¬ (key = "path" ∨ key = "query" ∨ key = "header" ∨ key = "cookie" ∨ key = "form")) :
    tagGet (eraseParams tags) key = tagGet tags key := by
  induction tags with
  | nil => rfl
  | cons kv rest ih =>
    by_cases hk : kv.1 = key
    · have hkeep : (!(kv.1 == "path" || kv.1 == "query" || kv.1 == "header" ||
          kv.1 == "cookie" || kv.1 == "form")) = true := by
        subst hk
        simp only [Bool.not_eq_true', Bool.or_eq_false_iff]
        refine ⟨⟨⟨⟨?_, ?_⟩, ?_⟩, ?_⟩, ?_⟩ <;>
          (apply beq_eq_false_iff_ne.mpr; intro hc; exact h (by simp [hc]))
      simp only [eraseParams, List.filter_cons, hkeep, if_pos]
      simp [tagGet, List.find?_cons, beq_iff_eq, hk]
    · have hkb : (kv.1 == key) = false := beq_eq_false_iff_ne.mpr hk
      by_cases hkeep : (!(kv.1 == "path" || kv.1 == "query" || kv.1 == "header" ||
          kv.1 == "cookie" || kv.1 == "form")) = true
      · simp only [eraseParams, List.filter_cons, hkeep, if_pos]
        simp only [tagGet, List.find?_cons, hkb]
        exact ih
      · have hkeep' := eq_false_of_ne_true hkeep
        simp only [eraseParams, List.filter_cons, hkeep', Bool.false_eq_true, if_false]
        simp only [tagGet, List.find?_cons, hkb]
        exact ih

/-- `minLength` check is blind to binding tags. -/
theorem checkMinLength_eraseParams (tags : List (String × String)) (fv : Val) (path : String) :
    checkMinLength (eraseParams tags) fv path = checkMinLength tags fv path := by
  unfold checkMinLength
  rw [tagGet_eraseParams tags "minLength" (by simp)]

/-- `maxLength` check is blind to binding tags. -/
theorem checkMaxLength_eraseParams (tags : List (String × String)) (fv : Val) (path : String) :
    checkMaxLength (eraseParams tags) fv path = checkMaxLength tags fv path := by
  unfold checkMaxLength
  rw [tagGet_eraseParams tags "maxLength" (by simp)]

/-- `pattern` check is blind to binding tags. -/
theorem checkPatternBlock_eraseParams (re : String → String → Option Bool)
    (tags : List (String × String)) (fv : Val) (path : String) :
    checkPatternBlock re (eraseParams tags) fv path = checkPatternBlock re tags fv path := by
  unfold checkPatternBlock
  rw [tagGet_eraseParams tags "pattern" (by simp)]

/-- `minimum` check is blind to binding tags. -/
theorem checkMinimum_eraseParams (tags : List (String × String)) (fv : Val) (path : String) :
    checkMinimum (eraseParams tags) fv path = checkMinimum tags fv path := by
  unfold checkMinimum
  rw [tagGet_eraseParams tags "minimum" (by simp)]

/-- `maximum` check is blind to binding tags. -/
theorem checkMaximum_eraseParams (tags : List (String × String)) (fv : Val) (path : String) :
    checkMaximum (eraseParams tags) fv path = checkMaximum tags fv path := by
  unfold checkMaximum
  rw [tagGet_eraseParams tags "maximum" (by simp)]

/-- `enum` check is blind to binding tags. -/
theorem checkEnumBlock_eraseParams (tags : List (String × String)) (fv : Val) (path : String) :
    checkEnumBlock (eraseParams tags) fv path = checkEnumBlock tags fv path := by
  unfold checkEnumBlock
  rw [tagGet_eraseParams tags "enum" (by simp)]

/-- `minItems` check is blind to binding tags. -/
theorem checkMinItems_eraseParams (tags : List (String × String)) (fv : Val) (path : String) :
    checkMinItems (eraseParams tags) fv path = checkMinItems tags fv path := by
  unfold checkMinItems
  rw [tagGet_eraseParams tags "minItems" (by simp)]

/-- `maxItems` check is blind to binding tags. -/
theorem checkMaxItems_eraseParams (tags : List (String × String)) (fv : Val) (path : String) :
    checkMaxItems (eraseParams tags) fv path = checkMaxItems tags fv path := by
  unfold checkMaxItems
  rw [tagGet_eraseParams tags "maxItems" (by simp)]

/-- C6 (amended) — The constraint validator does *not* skip
binding-source fields: constraint tags on a parameter-bound field are
checked exactly as on a payload field (stripping the binding tags
changes nothing about the per-field check), and the binding source only
suppresses recursion *into* a nested struct field — the field's own
constraint violations are still reported alongside the rest. -/
theorem claim_C6_param_fields_checked (re : String → String → Option Bool) :
    (∀ (tags : List (String × String)) (fv : Val) (path : String),
      checkFieldConstraints re (eraseParams tags) fv path =
        checkFieldConstraints re tags fv path) ∧
    (∀ (fname : String) (tags : List (String × String)) (bf rest : VFields) (pfx : String),
      isParamField tags = true → ¬ fname = "Body" → ¬ jsonFieldName tags fname = "-" →
      collectFields re (.cons fname true tags false (.vStruct bf) rest) pfx =
        checkFieldConstraints re tags (.vStruct bf)
          (if pfx == "" then jsonFieldName tags fname
           else pfx ++ "." ++ jsonFieldName tags fname) ++
        collectFields re rest pfx) := by
  constructor
  · intro tags fv path
    unfold checkFieldConstraints
    rw [checkMinLength_eraseParams, checkMaxLength_eraseParams,
      checkPatternBlock_eraseParams, checkMinimum_eraseParams, checkMaximum_eraseParams,
      checkEnumBlock_eraseParams, checkMinItems_eraseParams, checkMaxItems_eraseParams]
  · intro fname tags bf rest pfx hpar hbody hdash
    rw [collectFields_cons]
    have hdb : (jsonFieldName tags fname == "-") = false := beq_eq_false_iff_ne.mpr hdash
    have hbb : (fname == "Body") = false := beq_eq_false_iff_ne.mpr hbody
    simp [hdb, hbb, hpar]

/-- A struct whose only field is query-bound with a violated
`minLength`. -/
def queryBoundVal : Val :=
  .vStruct (.cons "Name" true [("query", "name"), ("minLength", "3")] false (.vStr "ab") .nil)

/-- Counterexample to C6 as stated: the field is query-bound
(a binding-source field), yet `validate` reports its `minLength`
violation rather than skipping it. -/
theorem claim_C6_counterexample :
    isParamField [("query", "name"), ("minLength", "3")] = true ∧
    validateConstraints reNone queryBoundVal =
      some ⟨"about:blank", "Validation Failed", 400, "1 constraint violation(s)",
        [⟨"Name", "must be at least 3 characters", .s "ab"⟩]⟩ :=
  ⟨rfl, rfl⟩

/-- Witness for C6 (amended): both clauses at concrete inputs — the
erased-tags clause at the query-bound field, and the no-recursion
clause at a query-bound struct field. -/
theorem claim_C6_witness :
    (checkFieldConstraints reNone
        (eraseParams [("query", "name"), ("minLength", "3")]) (.vStr "ab") "Name" =
      checkFieldConstraints reNone [("query", "name"), ("minLength", "3")] (.vStr "ab") "Name") ∧
    (isParamField [("query", "q")] = true ∧
      collectFields reNone
          (.cons "Inner" true [("query", "q")] false
            (.vStruct (.cons "X" true [("minLength", "5")] false (.vStr "y") .nil)) .nil) "" =
        checkFieldConstraints reNone [("query", "q")]
          (.vStruct (.cons "X" true [("minLength", "5")] false (.vStr "y") .nil))
          (if ("" == "") = true then jsonFieldName [("query", "q")] "Inner"
           else "" ++ "." ++ jsonFieldName [("query", "q")] "Inner") ++
        collectFields reNone .nil "") :=
  ⟨(claim_C6_param_fields_checked reNone).1 [("query", "name"), ("minLength", "3")]
      (.vStr "ab") "Name",
   rfl,
   (claim_C6_param_fields_checked reNone).2 "Inner" [("query", "q")]
      (.cons "X" true [("minLength", "5")] false (.vStr "y") .nil) .nil ""
      rfl (by decide) (by decide)⟩

/-! ## Request binder (`request.go`)

Field kinds are the `reflect.Kind`s (plus the `time.Duration`,
`RawRequest` and `FileUpload` special types) that binding
distinguishes; a bound value is a `FieldVal`. The body is modelled as
an optional decoded JSON value (`none` = the zero state): the
field-by-field unmarshalling of `encoding/json` into the struct is
outside what the claims inspect, but presence/absence of a decode, EOF
tolerance and syntax errors are modelled faithfully. -/

/-- Model of `time.ParseDuration` units, in nanoseconds. -/
def durUnitNs (u : String) : Option Int :=
  if u = "ns" then some 1
  else if u = "us" || u = "µs" || u = "μs" then some 1000
  else if u = "ms" then some 1000000
  else if u = "s" then some 1000000000
  else if u = "m" then some 60000000000
  else if u = "h" then some 3600000000000
  else none

/-- One `<number><unit>` component plus the remainder: integer part,
optional fraction, then the unit token (everything up to the next digit
or dot). -/
def parseDurComponents : Nat → List Char → Option Int
  | _, [] => some 0
  | 0, _ => none
  | fuel + 1, cs =>
    let (ip, rest1) := cs.span Char.isDigit
    let (fp, rest2) :=
      match rest1 with
      | '.' :: r => r.span Char.isDigit
      | _ => ([], rest1)
    let rest2 := if rest1.head? = some '.' then rest2 else rest1
    if ip = [] && fp = [] then none
    else
      let (u, rest3) := rest2.span (fun c => !c.isDigit && c ≠ '.')
      match durUnitNs ⟨u⟩ with
      | none => none
      | some unit =>
        let scale : Int := (10 : Int) ^ fp.length
        let v : Int := (digitsToNat ip : Int) * unit + (digitsToNat fp : Int) * unit / scale
        match parseDurComponents fuel rest3 with
        | some rest => some (v + rest)
        | none => none

/-- Model of `time.ParseDuration` (the duration-literal grammar:
optional sign, then one or more `<number><unit>` components; `"0"`
alone is allowed; overflow checks elided). Result in nanoseconds. -/
def parseDuration (s : String) : Option Int :=
  let (neg, cs) :=
    match s.data with
    | '-' :: r => (true, r)
    | '+' :: r => (false, r)
    | r => (false, r)
  if cs = [] then none
  else if cs = ['0'] then some 0
  else
    match cs with
    | c :: _ =>
      if !(c.isDigit || c = '.') then none
      else
        match parseDurComponents (cs.length + 1) cs with
        | some v => some (if neg then -v else v)
        | none => none
    | [] => none

/-! ### JSON value syntax (model of `encoding/json` decoding) -/

/-- A decoded JSON value. -/
inductive Json where
  | jnull
  | jbool (b : Bool)
  | jnum (q : ℚ)
  | jstr (s : String)
  | jarr (elems : List Json)
  | jobj (fields : List (String × Json))

/-- JSON whitespace skip. -/
def skipWs (cs : List Char) : List Char :=
  cs.dropWhile (fun c => c = ' ' || c = '\t' || c = '\n' || c = '\r')

/-- The characters of a JSON string after the opening quote (escapes
taken verbatim after the backslash; no `\u` decoding). -/
def jStrChars : List Char → Option (List Char × List Char)
  | [] => none
  | '\\' :: c :: rest =>
    match jStrChars rest with
    | some (s, r) => some (c :: s, r)
    | none => none
  | '"' :: rest => some ([], rest)
  | c :: rest =>
    match jStrChars rest with
    | some (s, r) => some (c :: s, r)
    | none => none

/-- A JSON number starting at the given characters. -/
def jNum (cs : List Char) : Option (ℚ × List Char) :=
  let (neg, cs1) := match cs with
    | '-' :: r => (true, r)
    | r => (false, r)
  let (ip, cs2) := cs1.span Char.isDigit
  if ip = [] then none
  else
    let (fp, cs3) :=
      match cs2 with
      | '.' :: r => r.span Char.isDigit
      | _ => ([], cs2)
    let cs3 := if cs2.head? = some '.' then cs3 else cs2
    if cs2.head? = some '.' && fp = [] then none
    else
      let q : ℚ := mkRat (digitsToNat ip * 10 ^ fp.length + digitsToNat fp) (10 ^ fp.length)
      some (if neg then -q else q, cs3)

mutual
/-- One JSON value (fuel-based recursive-descent). -/
def jVal : Nat → List Char → Option (Json × List Char)
  | 0, _ => none
  | fuel + 1, cs =>
    match skipWs cs with
    | [] => none
    | c :: rest =>
      if c = Char.ofNat 123 then
        match skipWs rest with
        | c2 :: rest2 =>
          if c2 = Char.ofNat 125 then some (.jobj [], rest2)
          else
            match jObjMembers fuel (c2 :: rest2) with
            | some (ms, r) => some (.jobj ms, r)
            | none => none
        | [] => none
      else if c = '[' then
        match skipWs rest with
        | c2 :: rest2 =>
          if c2 = ']' then some (.jarr [], rest2)
          else
            match jArrElems fuel (c2 :: rest2) with
            | some (es, r) => some (.jarr es, r)
            | none => none
        | [] => none
      else if c = '"' then
        match jStrChars rest with
        | some (s, r) => some (.jstr ⟨s⟩, r)
        | none => none
      else if c = 't' then
        match rest with
        | 'r' :: 'u' :: 'e' :: r => some (.jbool true, r)
        | _ => none
      else if c = 'f' then
        match rest with
        | 'a' :: 'l' :: 's' :: 'e' :: r => some (.jbool false, r)
        | _ => none
      else if c = 'n' then
        match rest with
        | 'u' :: 'l' :: 'l' :: r => some (.jnull, r)
        | _ => none
      else
        match jNum (c :: rest) with
        | some (q, r) => some (.jnum q, r)
        | none => none

/-- Comma-separated JSON array elements up to `]`. -/
def jArrElems : Nat → List Char → Option (List Json × List Char)
  | 0, _ => none
  | fuel + 1, cs =>
    match jVal fuel cs with
    | none => none
    | some (v, r) =>
      match skipWs r with
      | ',' :: r2 =>
        match jArrElems fuel r2 with
        | some (vs, r3) => some (v :: vs, r3)
        | none => none
      | ']' :: r2 => some ([v], r2)
      | _ => none

/-- Comma-separated JSON object members up to the closing brace. -/
def jObjMembers : Nat → List Char → Option (List (String × Json) × List Char)
  | 0, _ => none
  | fuel + 1, cs =>
    match skipWs cs with
    | '"' :: rest =>
      match jStrChars rest with
      | none => none
      | some (k, r) =>
        match skipWs r with
        | ':' :: r2 =>
          match jVal fuel r2 with
          | none => none
          | some (v, r3) =>
            match skipWs r3 with
            | ',' :: r4 =>
              match jObjMembers fuel r4 with
              | some (ms, r5) => some ((⟨k⟩, v) :: ms, r5)
              | none => none
            | c :: r4 =>
              if c = Char.ofNat 125 then some ([(⟨k⟩, v)], r4) else none
            | [] => none
        | _ => none
    | _ => none
end

/-- The outcome of one `json.Decoder.Decode` call: `eof` on
whitespace-only input (`io.EOF`), a value, or a syntax error. -/
inductive JsonOutcome where
  | eof
  | ok (j : Json)
  | err

/-- Model of `json.NewDecoder(r.Body).Decode`: empty input is `io.EOF`;
otherwise one JSON value is read (trailing bytes are not consumed). -/
def jsonDecode (s : String) : JsonOutcome :=
  match skipWs s.data with
  | [] => .eof
  | cs =>
    match jVal (cs.length + 1) cs with
    | some (j, _) => .ok j
    | none => .err

/-! ### Field kinds, values and binding -/

/-- The field kinds `setFieldValue` (and form/file binding)
distinguishes. -/
inductive FKind where
  | kString
  | kInt
  | kInt8
  | kInt16
  | kInt32
  | kInt64
  | kUint
  | kFloat32
  | kFloat64
  | kBool
  | kDuration
  | kStruct
  | kRaw
  | kFile
  | kFileSlice
  | kOther
deriving DecidableEq, Repr

/-- The Go name of a field kind (for the `unsupported type` message). -/
def FKind.typeName : FKind → String
  | .kString => "string"
  | .kInt => "int"
  | .kInt8 => "int8"
  | .kInt16 => "int16"
  | .kInt32 => "int32"
  | .kInt64 => "int64"
  | .kUint => "uint"
  | .kFloat32 => "float32"
  | .kFloat64 => "float64"
  | .kBool => "bool"
  | .kDuration => "time.Duration"
  | .kStruct => "struct"
  | .kRaw => "api.RawRequest"
  | .kFile => "api.FileUpload"
  | .kFileSlice => "[]api.FileUpload"
  | .kOther => "other"

/-- A bound field value. -/
inductive FieldVal where
  | fvStr (s : String)
  | fvInt (i : Int)
  | fvFloat (q : ℚ)
  | fvBool (b : Bool)
  | fvDur (ns : Int)
  | fvJson (j : Option Json)
  | fvRaw (injected : Bool)
  | fvFile (filename : Option String)
  | fvFiles (filenames : List String)
  | fvZero

/-- The zero value of each field kind. -/
def zeroVal : FKind → FieldVal
  | .kString => .fvStr ""
  | .kInt | .kInt8 | .kInt16 | .kInt32 | .kInt64 | .kUint => .fvInt 0
  | .kFloat32 | .kFloat64 => .fvFloat 0
  | .kBool => .fvBool false
  | .kDuration => .fvDur 0
  | .kStruct => .fvJson none
  | .kRaw => .fvRaw false
  | .kFile => .fvFile none
  | .kFileSlice => .fvFiles []
  | .kOther => .fvZero

/-- Model of `setFieldValue`: the `time.Duration` type first, then the
kind switch — `String`, `Int`/`Int64`, `Float64`, `Bool`; every other
kind is a binder configuration error. -/
def setFieldValue (kind : FKind) (value : String) : Except String FieldVal :=
  match kind with
  | .kDuration =>
    match parseDuration value with
    | some d => .ok (.fvDur d)
    | none => .error ("time: invalid duration " ++ value)
  | .kString => .ok (.fvStr value)
  | .kInt =>
    match parseInt64 value with
    | some n => .ok (.fvInt n)
    | none => .error ("strconv.ParseInt: parsing " ++ value)
  | .kInt64 =>
    match parseInt64 value with
    | some n => .ok (.fvInt n)
    | none => .error ("strconv.ParseInt: parsing " ++ value)
  | .kFloat64 =>
    match parseFloatQ value with
    | some q => .ok (.fvFloat q)
    | none => .error ("strconv.ParseFloat: parsing " ++ value)
  | .kBool =>
    match parseBool value with
    | some b => .ok (.fvBool b)
    | none => .error ("strconv.ParseBool: parsing " ++ value)
  | k => .error ("unsupported type: " ++ k.typeName)

/-- A request-struct field: Go name, exportedness, tags, kind. -/
structure RField where
  fname : String
  exported : Bool
  tags : List (String × String)
  kind : FKind

/-- The live request context the binder reads: path captures, query
parameters, headers, cookies, the body, and the parsed multipart form.
Absent entries resolve to `""`, as with `r.PathValue` /
`Query().Get` / `Header.Get` / a missing cookie. -/
structure HttpRequest where
  pathParams : List (String × String)
  queryParams : List (String × String)
  headers : List (String × String)
  cookies : List (String × String)
  bodyPresent : Bool
  contentLength : Int
  bodyBytes : String
  contentType : String
  formOk : Bool
  formValues : List (String × String)
  formFiles : List (String × List String)

/-- A structured `fmt.Errorf("%w: %s: %w", ErrBindX, name, err)` bind
error: the sentinel (`bind path` / `bind query` / `bind header` /
`bind cookie` / `bind form` / `bind body`), the wire name, and the
cause. -/
structure BindErr where
  source : String
  field : String
  cause : String
deriving DecidableEq, Repr

/-- One tag block of the `bindParams` loop: resolve the value (already
including any default fallback), convert when non-empty, keep the
current value otherwise. -/
def bindTagStep (kind : FKind) (source name val : String) (cur : FieldVal) :
    Except BindErr FieldVal :=
  if val != "" then
    match setFieldValue kind val with
    | .ok v => .ok v
    | .error e => .error ⟨source, name, e⟩
  else .ok cur

/-- Model of one iteration of the `bindParams` field loop: the `path`
block (no default fallback), then `query`, `header`, `cookie` (each
falling back to the `default` tag when the resolved value is empty),
then `RawRequest` injection. -/
def bindField (f : RField) (r : HttpRequest) : Except BindErr FieldVal := do
  let v0 := zeroVal f.kind
  let v1 ←
    (if tagGet f.tags "path" != "" then
      bindTagStep f.kind "bind path" (tagGet f.tags "path")
        (tagGet r.pathParams (tagGet f.tags "path")) v0
    else .ok v0)
  let v2 ←
    (if tagGet f.tags "query" != "" then
      let val0 := tagGet r.queryParams (tagGet f.tags "query")
      let val := if val0 = "" then tagGet f.tags "default" else val0
      bindTagStep f.kind "bind query" (tagGet f.tags "query") val v1
    else .ok v1)
  let v3 ←
    (if tagGet f.tags "header" != "" then
      let val0 := tagGet r.headers (tagGet f.tags "header")
      let val := if val0 = "" then tagGet f.tags "default" else val0
      bindTagStep f.kind "bind header" (tagGet f.tags "header") val v2
    else .ok v2)
  let v4 ←
    (if tagGet f.tags "cookie" != "" then
      let val0 := tagGet r.cookies (tagGet f.tags "cookie")
      let val := if val0 = "" then tagGet f.tags "default" else val0
      bindTagStep f.kind "bind cookie" (tagGet f.tags "cookie") val v3
    else .ok v3)
  if f.kind = .kRaw then .ok (.fvRaw true) else .ok v4

/-- Model of `bindParams`: iterate the fields in order, skipping
unexported fields and the `Body` field (both stay at their zero value);
the first binding error aborts. -/
def bindParams : List RField → HttpRequest → Except BindErr (List (String × FieldVal))
  | [], _ => .ok []
  | f :: rest, r =>
    if !f.exported then
      match bindParams rest r with
      | .ok l => .ok ((f.fname, zeroVal f.kind) :: l)
      | .error e => .error e
    else if f.fname == "Body" then
      match bindParams rest r with
      | .ok l => .ok ((f.fname, zeroVal f.kind) :: l)
      | .error e => .error e
    else
      match bindField f r with
      | .error e => .error e
      | .ok v =>
        match bindParams rest r with
        | .ok l => .ok ((f.fname, v) :: l)
        | .error e => .error e

/-! ### Classification and request decoding -/

/-- `requestCategory` (`request.go`). -/
inductive ReqCategory where
  | catVoid
  | catBodyOnly
  | catParams
  | catMixed
  | catForm
deriving DecidableEq, Repr

/-- A request type: the `Void` marker or a struct with fields. -/
inductive ReqType where
  | voidT
  | structT (fields : List RField)

/-- `hasFormTags`: any exported field with a `form` tag. -/
def hasFormTags (fields : List RField) : Bool :=
  fields.any (fun f => f.exported && tagGet f.tags "form" != "")

/-- `hasBodyField`: a field named `Body` exists. -/
def hasBodyField (fields : List RField) : Bool :=
  fields.any (fun f => f.fname == "Body")

/-- `hasParamTags`: any exported field with a parameter binding tag. -/
def hasParamTags (fields : List RField) : Bool :=
  fields.any (fun f => f.exported && paramTags.any (fun t => tagGet f.tags t != ""))

/-- `hasRawRequest`: any field (exported or not) of type `RawRequest`. -/
def hasRawRequest (fields : List RField) : Bool :=
  fields.any (fun f => f.kind = .kRaw)

/-- Model of `classifyRequest`: `Void`, then form tags, then a `Body`
field, then parameter tags or a `RawRequest` field, else whole-body. -/
def classifyRequest : ReqType → ReqCategory
  | .voidT => .catVoid
  | .structT fields =>
    if hasFormTags fields then .catForm
    else if hasBodyField fields then .catMixed
    else if hasParamTags fields || hasRawRequest fields then .catParams
    else .catBodyOnly

/-- Model of `decodeBody`: a nil body or zero `ContentLength` succeeds
without touching the target; decoding whitespace-only input hits
`io.EOF`, which is tolerated; a JSON value replaces the target; a
syntax error is an error. -/
def decodeBody (r : HttpRequest) (target : Option Json) : Except String (Option Json) :=
  if !r.bodyPresent || r.contentLength == 0 then .ok target
  else
    match jsonDecode r.bodyBytes with
    | .eof => .ok target
    | .ok j => .ok (some j)
    | .err => .error "invalid character in JSON body"

/-- Model of the per-field logic of `bindFormFields`: `FileUpload`
fields take the first uploaded file (a missing file is tolerated),
`[]FileUpload` fields take all files (absence leaves the nil slice),
scalar fields convert `r.FormValue` when non-empty. -/
def bindFormField (f : RField) (r : HttpRequest) (cur : FieldVal) :
    Except BindErr FieldVal :=
  let name := tagGet f.tags "form"
  if name == "" then .ok cur
  else
    match f.kind with
    | .kFile =>
      match mapLookup name r.formFiles with
      | some (fn :: _) => .ok (.fvFile (some fn))
      | _ => .ok cur
    | .kFileSlice =>
      match mapLookup name r.formFiles with
      | some (fn :: fns) => .ok (.fvFiles (fn :: fns))
      | _ => .ok cur
    | k =>
      let val := tagGet r.formValues name
      if val != "" then
        match setFieldValue k val with
        | .ok v => .ok v
        | .error e => .error ⟨"bind form", name, e⟩
      else .ok cur

/-- Model of `bindFormFields`: a multipart parse failure is a form bind
error; otherwise each exported, `form`-tagged field is (re)bound over
the already-parameter-bound values. -/
def bindFormFields : List RField → List (String × FieldVal) → HttpRequest →
    Except BindErr (List (String × FieldVal))
  | [], _, _ => .ok []
  | f :: rest, vals, r =>
    let cur := (mapLookup f.fname vals).getD (zeroVal f.kind)
    let tail := fun (v : FieldVal) =>
      match bindFormFields rest vals r with
      | .ok l => .ok ((f.fname, v) :: l)
      | .error e => .error e
    if !f.exported then tail cur
    else
      match bindFormField f r cur with
      | .ok v => tail v
      | .error e => .error e

/-- A decoded request value: the per-field bound values, the decoded
whole-body payload (whole-body shapes), and the decoded `Body` member
(params-plus-body shapes); `none` is the zero state. -/
structure BoundVal where
  fields : List (String × FieldVal)
  whole : Option Json
  body : Option Json

/-- Model of `decodeRequest`: `Void` short-circuits; `bindParams` always
runs; then the body is decoded into the whole value (`catBodyOnly`) or
the `Body` member (`catMixed`), or the multipart form is bound
(`catForm`). The first error aborts. -/
def decodeRequest (t : ReqType) (r : HttpRequest) : Except BindErr BoundVal :=
  match t with
  | .voidT => .ok ⟨[], none, none⟩
  | .structT fields =>
    match bindParams fields r with
    | .error e => .error e
    | .ok fvs =>
      match classifyRequest (.structT fields) with
      | .catBodyOnly =>
        match decodeBody r none with
        | .ok w => .ok ⟨fvs, w, none⟩
        | .error e => .error ⟨"bind body", "", e⟩
      | .catMixed =>
        match decodeBody r none with
        | .ok b => .ok ⟨fvs, none, b⟩
        | .error e => .error ⟨"bind body", "", e⟩
      | .catForm =>
        if !r.formOk then .error ⟨"bind form", "", "multipart parse error"⟩
        else
          match bindFormFields fields fvs r with
          | .ok fvs2 => .ok ⟨fvs2, none, none⟩
          | .error e => .error e
      | _ => .ok ⟨fvs, none, none⟩

/-! ### C5 — empty-body tolerance -/

/-- `decodeBody` succeeds and leaves the target untouched when the body
is absent or zero-length. -/
theorem decodeBody_empty (r : HttpRequest) (target : Option Json)
    (h : r.bodyPresent = false ∨ r.bodyBytes = "") :
    decodeBody r target = .ok target := by
  unfold decodeBody
  rcases h with h | h
  · rw [h]
    simp
  · by_cases hp : (!r.bodyPresent || r.contentLength == 0) = true
    · rw [if_pos hp]
    · rw [if_neg hp]
      rw [h]
      rfl

/-- C5 — Empty-body tolerance: for a `ParamsPlusBody` request whose
parameters bind successfully, an absent or zero-length body is never a
binding error — decoding succeeds with the `Body` member left at its
zero state; the same holds for whole-body shapes. -/
theorem claim_C5_empty_body_tolerance (fields : List RField) (r : HttpRequest)
    (fvs : List (String × FieldVal))
    (hbind : bindParams fields r = .ok fvs)
    (hbody : r.bodyPresent = false ∨ r.bodyBytes = "") :
    (classifyRequest (.structT fields) = .catMixed →
      decodeRequest (.structT fields) r = .ok ⟨fvs, none, none⟩) ∧
    (classifyRequest (.structT fields) = .catBodyOnly →
      decodeRequest (.structT fields) r = .ok ⟨fvs, none, none⟩) := by
  constructor
  · intro hcat
    simp only [decodeRequest, hbind, hcat, decodeBody_empty r none hbody]
  · intro hcat
    simp only [decodeRequest, hbind, hcat, decodeBody_empty r none hbody]

/-- A concrete `ParamsPlusBody` request type: a path-bound `ID` plus a
`Body` member. -/
def mixedType : List RField :=
  [⟨"ID", true, [("path", "id")], .kString⟩,
   ⟨"Body", true, [], .kStruct⟩]

/-- A request with the path capture set and no body. -/
def emptyBodyReq : HttpRequest :=
  { pathParams := [("id", "42")], queryParams := [], headers := [], cookies := [],
    bodyPresent := false, contentLength := 0, bodyBytes := "",
    contentType := "", formOk := true, formValues := [], formFiles := [] }

/-- Witness for C5: the tolerance theorem at the concrete
`ParamsPlusBody` type with path parameter `id=42` and an absent body. -/
theorem claim_C5_witness :
    classifyRequest (.structT mixedType) = .catMixed ∧
    decodeRequest (.structT mixedType) emptyBodyReq =
      .ok ⟨[("ID", .fvStr "42"), ("Body", .fvJson none)], none, none⟩ :=
  ⟨rfl,
   (claim_C5_empty_body_tolerance mixedType emptyBodyReq
      [("ID", .fvStr "42"), ("Body", .fvJson none)] rfl (Or.inl rfl)).1 rfl⟩

/-! ### C7 — the body decoder ignores Content-Type (code bug) -/

/-- `bindField` never reads the Content-Type. -/
theorem bindField_ct (f : RField) (r : HttpRequest) (c : String) :
    bindField f { r with contentType := c } = bindField f r := rfl

/-- `bindParams` never reads the Content-Type. -/
theorem bindParams_ct (fields : List RField) (r : HttpRequest) (c : String) :
    bindParams fields { r with contentType := c } = bindParams fields r := by
  induction fields with
  | nil => rfl
  | cons f rest ih =>
    unfold bindParams
    rw [bindField_ct, ih]

/-- `decodeBody` never reads the Content-Type. -/
theorem decodeBody_ct (r : HttpRequest) (c : String) (target : Option Json) :
    decodeBody { r with contentType := c } target = decodeBody r target := rfl

/-- `bindFormFields` never reads the Content-Type. -/
theorem bindFormFields_ct (fields : List RField) (vals : List (String × FieldVal))
    (r : HttpRequest) (c : String) :
    bindFormFields fields vals { r with contentType := c } =
      bindFormFields fields vals r := by
  induction fields with
  | nil => rfl
  | cons f rest ih =>
    unfold bindFormFields
    have : bindFormField f { r with contentType := c } = bindFormField f r := rfl
    rw [this, ih]

/-- The concrete XML request of `TestNegotiate_xml_request_body`: an XML
body with `Content-Type: application/xml`. -/
def xmlBodyReq : HttpRequest :=
  { pathParams := [], queryParams := [], headers := [], cookies := [],
    bodyPresent := true, contentLength := 35,
    bodyBytes := "<greeting><name>x</name></greeting>",
    contentType := "application/xml", formOk := true, formValues := [], formFiles := [] }

/-- The whole-body request type of that test. -/
def greetReqType : ReqType := .structT [⟨"Name", true, [("json", "name")], .kString⟩]

/-- C7 — Body decoding does *not* use the negotiated decoder:
`decodeRequest` is invariant under any change of the Content-Type
header (it never consults `decoderFor`), and on the concrete XML
request of the negotiation test — whose media type the codec registry
resolves to the XML decoder — it fails with a body bind error, because
the body is decoded unconditionally as JSON. -/
theorem claim_C7_decoder_not_negotiated :
    (∀ (t : ReqType) (r : HttpRequest) (ct1 ct2 : String),
      decodeRequest t { r with contentType := ct1 } =
        decodeRequest t { r with contentType := ct2 }) ∧
    decoderFor (newCodecList []) "application/xml" = some xmlCodec ∧
    decodeRequest greetReqType xmlBodyReq =
      .error ⟨"bind body", "", "invalid character in JSON body"⟩ := by
  refine ⟨?_, by decide, rfl⟩
  intro t r ct1 ct2
  cases t with
  | voidT => rfl
  | structT fields =>
    simp only [decodeRequest, bindParams_ct, decodeBody_ct, bindFormFields_ct]

/-- Witness for C7: the invariance clause applied at the concrete XML
request — replacing `application/xml` by `application/json` changes
nothing about (the failing) body decoding. -/
theorem claim_C7_witness :
    decodeRequest greetReqType { xmlBodyReq with contentType := "application/xml" } =
      decodeRequest greetReqType { xmlBodyReq with contentType := "application/json" } :=
  claim_C7_decoder_not_negotiated.1 greetReqType xmlBodyReq "application/xml" "application/json"

/-! ### C9 — scalar conversion coverage -/

/-- A request with a non-numeric query value for `age`. -/
def c9req : HttpRequest :=
  { pathParams := [], queryParams := [("age", "abc")], headers := [], cookies := [],
    bodyPresent := false, contentLength := 0, bodyBytes := "",
    contentType := "", formOk := true, formValues := [], formFiles := [] }

/-- C9 (amended) — Scalar conversion coverage: converting the resolved
string succeeds for kind `string` always, for the `int`/`int64` kinds
exactly when the string is a valid signed 64-bit integer literal, for
`float64` exactly when it is a valid float literal, for `bool` exactly
when it is a valid bool literal, and for `time.Duration` exactly when it
is a valid duration literal; every *other* kind — including the signed
integer kinds `int8`/`int16`/`int32` — is an "unsupported type" binder
configuration error; and a conversion failure on a query-resolved value
surfaces as a bind error carrying the binding source and the wire
name. -/
theorem claim_C9_scalar_conversion (s : String) :
    (∃ v, setFieldValue .kString s = .ok v) ∧
    ((∃ v, setFieldValue .kInt s = .ok v) ↔ (parseInt64 s).isSome = true) ∧
    ((∃ v, setFieldValue .kInt64 s = .ok v) ↔ (parseInt64 s).isSome = true) ∧
    ((∃ v, setFieldValue .kFloat64 s = .ok v) ↔ (parseFloatQ s).isSome = true) ∧
    ((∃ v, setFieldValue .kBool s = .ok v) ↔ (parseBool s).isSome = true) ∧
    ((∃ v, setFieldValue .kDuration s = .ok v) ↔ (parseDuration s).isSome = true) ∧
    (∀ k : FKind, k ∈ [FKind.kInt8, .kInt16, .kInt32, .kUint, .kFloat32,
        .kStruct, .kRaw, .kFile, .kFileSlice, .kOther] →
      setFieldValue k s = .error ("unsupported type: " ++ k.typeName)) ∧
    (∀ (f : RField) (r : HttpRequest) (w cause : String),
      tagGet f.tags "path" = "" →
      tagGet f.tags "query" = w →
      w ≠ "" →
      tagGet r.queryParams w ≠ "" →
      setFieldValue f.kind (tagGet r.queryParams w) = .error cause →
      bindField f r = .error ⟨"bind query", w, cause⟩) := by
  refine ⟨⟨.fvStr s, rfl⟩, ?_, ?_, ?_, ?_, ?_, ?_, ?_⟩
  · constructor
    · rintro ⟨v, hv⟩
      cases h : parseInt64 s <;> simp [setFieldValue, h] at hv ⊢
    · intro h
      obtain ⟨n, hn⟩ := Option.isSome_iff_exists.mp h
      exact ⟨.fvInt n, by simp [setFieldValue, hn]⟩
  · constructor
    · rintro ⟨v, hv⟩
      cases h : parseInt64 s <;> simp [setFieldValue, h] at hv ⊢
    · intro h
      obtain ⟨n, hn⟩ := Option.isSome_iff_exists.mp h
      exact ⟨.fvInt n, by simp [setFieldValue, hn]⟩
  · constructor
    · rintro ⟨v, hv⟩
      cases h : parseFloatQ s <;> simp [setFieldValue, h] at hv ⊢
    · intro h
      obtain ⟨q, hq⟩ := Option.isSome_iff_exists.mp h
      exact ⟨.fvFloat q, by simp [setFieldValue, hq]⟩
  · constructor
    · rintro ⟨v, hv⟩
      cases h : parseBool s <;> simp [setFieldValue, h] at hv ⊢
    · intro h
      obtain ⟨b, hb⟩ := Option.isSome_iff_exists.mp h
      exact ⟨.fvBool b, by simp [setFieldValue, hb]⟩
  · constructor
    · rintro ⟨v, hv⟩
      cases h : parseDuration s <;> simp [setFieldValue, h] at hv ⊢
    · intro h
      obtain ⟨d, hd⟩ := Option.isSome_iff_exists.mp h
      exact ⟨.fvDur d, by simp [setFieldValue, hd]⟩
  · intro k hk
    fin_cases hk <;> rfl
  · intro f r w cause hpath hquery hw hval hconv
    have hp : (tagGet f.tags "path" != "") = false := by simp [hpath]
    have hq : (tagGet f.tags "query" != "") = true := by
      rw [hquery]; exact bne_iff_ne.mpr hw
    have hv : (tagGet r.queryParams w = "") = False := by simp [hval]
    have hw2 : (w != "") = true := bne_iff_ne.mpr hw
    have hv2 : (tagGet r.queryParams w != "") = true := bne_iff_ne.mpr hval
    simp only [bindField, bindTagStep, hp, hquery, hq, hv, hw2, hv2, hconv,
      Bool.false_eq_true, if_false, if_true, bind, Except.bind]

/-- Counterexample to C9 as stated: `int8` is a signed integer kind, and
`"5"` is a well-formed signed-integer literal that `int64` accepts, yet
conversion into an `int8` field is rejected as an unsupported type —
`setFieldValue` only handles the `Int` and `Int64` reflect kinds. -/
theorem claim_C9_counterexample :
    setFieldValue .kInt8 "5" = .error "unsupported type: int8" ∧
    (∃ v, setFieldValue .kInt64 "5" = .ok v) :=
  ⟨rfl, ⟨.fvInt 5, rfl⟩⟩

/-- Witness for C9: a query-bound `int` field resolving to the
non-numeric string `"abc"` produces a bind error whose source is
`bind query` and whose field is the wire name `age`. -/
theorem claim_C9_witness :
    bindField ⟨"Age", true, [("query", "age")], .kInt⟩ c9req =
      .error ⟨"bind query", "age", "strconv.ParseInt: parsing abc"⟩ :=
  (claim_C9_scalar_conversion "x").2.2.2.2.2.2.2
    ⟨"Age", true, [("query", "age")], .kInt⟩ c9req "age" _
    rfl rfl (by decide) (by decide) rfl

/-! ### C10 — missing path capture tolerated, no default fallback -/

/-- C10 — A missing path capture is silently tolerated: when the capture
for a path-tagged field resolves to the empty string, binding returns no
error and leaves the field at its zero value — even when a `default` tag
is declared, since the path block never falls back to it; a query-tagged
field with the same missing value *does* fall back to its `default`
tag. -/
theorem claim_C10_missing_path_capture (f : RField) (r : HttpRequest)
    (hpath : tagGet f.tags "path" ≠ "")
    (hmiss : tagGet r.pathParams (tagGet f.tags "path") = "")
    (hq : tagGet f.tags "query" = "")
    (hh : tagGet f.tags "header" = "")
    (hc : tagGet f.tags "cookie" = "")
    (hk : f.kind ≠ .kRaw) :
    bindField f r = .ok (zeroVal f.kind) ∧
    (f.exported = true → f.fname ≠ "Body" →
      bindParams [f] r = .ok [(f.fname, zeroVal f.kind)]) ∧
    (∀ (g : RField) (r2 : HttpRequest) (w d : String) (v : FieldVal),
      tagGet g.tags "path" = "" →
      tagGet g.tags "query" = w →
      w ≠ "" →
      tagGet r2.queryParams w = "" →
      tagGet g.tags "default" = d →
      d ≠ "" →
      tagGet g.tags "header" = "" →
      tagGet g.tags "cookie" = "" →
      g.kind ≠ .kRaw →
      setFieldValue g.kind d = .ok v →
      bindField g r2 = .ok v) := by
  have hp2 : (tagGet f.tags "path" != "") = true := bne_iff_ne.mpr hpath
  have h1 : bindField f r = .ok (zeroVal f.kind) := by
    simp [bindField, bindTagStep, hp2, hmiss, hq, hh, hc, hk, bind, Except.bind]
  refine ⟨h1, ?_, ?_⟩
  · intro hexp hbody
    simp [bindParams, hexp, h1, beq_eq_false_iff_ne.mpr hbody, bind, Except.bind]
  · intro g r2 w d v hgp hgq hgw hmq hgd hd hgh hgc hgk hconv
    have hgp2 : (tagGet g.tags "path" != "") = false := by simp [hgp]
    have hgq2 : (tagGet g.tags "query" != "") = true := by
      rw [hgq]; exact bne_iff_ne.mpr hgw
    have hd2 : (d != "") = true := bne_iff_ne.mpr hd
    simp only [bindField, bindTagStep, hgp2, hgq, hgq2, hmq, hgd, hd2, hgh, hgc,
      Bool.false_eq_true, if_false, if_true, if_pos, bind, Except.bind, hconv]
    simp [hgk, bind, Except.bind]
    rw [if_neg hgw]

/-- A path-tagged field with a declared default tag. -/
def pathField : RField := ⟨"ID", true, [("path", "id"), ("default", "7")], .kString⟩

/-- A request supplying no captures, parameters, headers or cookies. -/
def noCaptureReq : HttpRequest :=
  { pathParams := [], queryParams := [], headers := [], cookies := [],
    bodyPresent := false, contentLength := 0, bodyBytes := "",
    contentType := "", formOk := true, formValues := [], formFiles := [] }

/-- Witness for C10: a path-tagged string field with `default:"7"` bound
against a request with no captures stays at `""` (through `bindField`
and `bindParams`), while the query-tagged variant picks up `"7"`. -/
theorem claim_C10_witness :
    bindField pathField noCaptureReq = .ok (.fvStr "") ∧
    bindParams [pathField] noCaptureReq = .ok [("ID", .fvStr "")] ∧
    bindField ⟨"ID", true, [("query", "id"), ("default", "7")], .kString⟩ noCaptureReq =
      .ok (.fvStr "7") :=
  have h := claim_C10_missing_path_capture pathField noCaptureReq
    (by decide) rfl rfl rfl rfl (by decide)
  ⟨h.1, h.2.1 rfl (by decide), h.2.2 _ noCaptureReq "id" "7" (.fvStr "7")
    rfl rfl (by decide) rfl rfl (by decide) rfl rfl (by decide) rfl⟩

end Api
